import Mathlib

/-! # Rain simulation (`src/main.js`): shallow embedding and checked properties

The globals of the script (`W`, `H`, `DPR`, `targetCount`, `drops`, `splashes`,
`paused`, `lightningTimer`, `last`) are the fields of `Sim`, and every function of
the script that touches them is a state-passing function on `Sim`.

Arithmetic.  JavaScript numbers are embedded as rationals (`ℚ`); integer-valued
results (`Math.floor`, `Math.round`, `x|0`) are `Int`.  `fl` is IEEE-754 rounding
to the nearest double (53-bit significand, ties to even; the exponent range is
taken unbounded, so overflow to `Infinity` and underflow to subnormals are not
represented).  Where a property depends on the value a double operation returns
at the end of a range, the operations carry `fl`: `resize`, `makeSplash`, and
`randF`, `Drop.resetF`, `Drop.updateF` (the double-arithmetic forms of `rand`,
`Drop.reset`, `Drop.update`).  The plain `rand`, `Drop.reset`, `Drop.update` keep
the exact operations; they carry the properties about order of effects, signs
and closed bounds.

`Math.random()` is a stream of samples with a read cursor (`Rng`).  The
library functions `Math.sin`, `Math.cos` and the constant `Math.PI` are taken
as a parameter (`MathLib`).  Canvas drawing calls (`ctx.*`) do not feed back
into any simulation variable and are left out; `requestAnimationFrame` and
`triggerLightning` are recorded as counters.
-/

namespace Rain

/-! ## Environment -/

/-- The part of the JavaScript `Math` object used by the script besides
`random`, `floor`, `round`, `min` and `max`. -/
structure MathLib where
  PI : ℚ
  sin : ℚ → ℚ
  cos : ℚ → ℚ

/-- The stream of values returned by successive `Math.random()` calls and the
index of the next one. -/
structure Rng where
  samples : Nat → ℚ
  pos : Nat

/-- Every `Math.random()` sample lies in `[0, 1)`. -/
def Rng.Valid (g : Rng) : Prop := ∀ i, 0 ≤ g.samples i ∧ g.samples i < 1

/-- One `Math.random()` call: the value read and the advanced stream. -/
def Rng.next (g : Rng) : ℚ × Rng := (g.samples g.pos, { g with pos := g.pos + 1 })

/-- `function rand(a,b){ return Math.random()*(b-a)+a; }` -/
def rand (a b : ℚ) (g : Rng) : ℚ × Rng := ((g.next).1 * (b - a) + a, (g.next).2)

/-- `Math.floor`. -/
def jsFloor (x : ℚ) : Int := ⌊x⌋

/-- `Math.round`: nearest integer, ties towards `+∞`. -/
def jsRound (x : ℚ) : Int := ⌊x + 1 / 2⌋

/-- Truncation towards zero (the integer part used by `ToInt32`). -/
def jsTrunc (x : ℚ) : Int := if 0 ≤ x then ⌊x⌋ else ⌈x⌉

/-- `x|0`: ECMAScript `ToInt32`, truncation followed by wrap-around into
`[-2^31, 2^31)`. -/
def toInt32 (x : ℚ) : Int :=
  let k := jsTrunc x % 4294967296
  if 2147483648 ≤ k then k - 4294967296 else k

/-! ## Double arithmetic -/

/-- Nearest integer, ties to the even neighbour. -/
def roundEven (y : ℚ) : Int :=
  if y - ⌊y⌋ < 1 / 2 then ⌊y⌋
  else if 1 / 2 < y - ⌊y⌋ then ⌊y⌋ + 1
  else if ⌊y⌋ % 2 = 0 then ⌊y⌋ else ⌊y⌋ + 1

/-- The exponent of the unit in the last place of the double nearest to `x`:
`floor(log2 |x|) - 52`. -/
def ulpExp (x : ℚ) : Int := Int.log 2 |x| - 52

/-- Rounding to the nearest double (ties to even): the value a JavaScript
arithmetic operation returns when its exact result is `x`. -/
def fl (x : ℚ) : ℚ := roundEven (x / 2 ^ ulpExp x) * 2 ^ ulpExp x

/-- `function rand(a,b){ return Math.random()*(b-a)+a; }` in double arithmetic:
the difference, the product and the sum are each rounded. -/
def randF (a b : ℚ) (g : Rng) : ℚ × Rng :=
  (fl (fl ((g.next).1 * fl (b - a)) + a), (g.next).2)

/-- Every `Math.random()` sample is a double in `[0, 1)`. -/
def Rng.ValidF (g : Rng) : Prop :=
  ∀ i, fl (g.samples i) = g.samples i ∧ 0 ≤ g.samples i ∧ g.samples i < 1

/-! ## Data model -/

/-- `class Drop`: fields `x`, `y`, `base`, `life`. -/
structure Drop where
  x : ℚ
  y : ℚ
  base : ℚ
  life : ℚ

/-- `class Splash`: fields `x`, `y`, `vx`, `vy`, `life`. -/
structure Splash where
  x : ℚ
  y : ℚ
  vx : ℚ
  vy : ℚ
  life : ℚ

/-- The object returned by `getConfig()`. -/
structure Config where
  speed : ℚ
  wind : ℚ
  thickness : ℚ
  color : String
  splash : Bool
  lightning : Bool

/-- The mutable globals of the script. `flashes` counts `triggerLightning`
calls and `frames` counts `requestAnimationFrame(loop)` calls. -/
structure Sim where
  W : ℚ
  H : ℚ
  DPR : ℚ
  targetCount : Int
  drops : List Drop
  splashes : List Splash
  paused : Bool
  lightningTimer : ℚ
  last : ℚ
  rng : Rng
  flashes : Nat
  frames : Nat

/-- `DPR = Math.max(1, Math.min(2, window.devicePixelRatio || 1))`. -/
def initDPR (devicePixelRatio : ℚ) : ℚ :=
  max 1 (min 2 (if devicePixelRatio = 0 then 1 else devicePixelRatio))

/-! ## `resize` -/

/-- `function resize()`, with `window.innerWidth`, `window.innerHeight` and
`parseInt(controls.density.value,10)` as inputs, in double arithmetic: the
products `w * DPR`, `h * DPR`, `W*H`, `density * (W*H)`, `1280*720` and the
quotient are each rounded before `Math.floor` / `Math.round` see them. -/
def resize (density : Int) (w h : ℚ) (s : Sim) : Sim :=
  let W : ℚ := jsFloor (fl (w * s.DPR))
  let H : ℚ := jsFloor (fl (h * s.DPR))
  let targetCount := jsRound (fl (fl (fl density * fl (W * H)) / fl (1280 * 720)))
  { s with W := W, H := H, targetCount := min targetCount 8000 }

/-! ## Drops -/

/-- `Drop.reset(fromTop)`: three `rand` calls in the order `x`, `y`, `base`,
then `life = 1`. -/
def Drop.reset (W H : ℚ) (fromTop : Bool) (d : Drop) (g : Rng) : Drop × Rng :=
  let rx := rand (-W * 0.1) (W * 1.1) g
  let ry := if fromTop then rand (-H * 1.0) (-10) rx.2 else rand (-H * 0.2) (-10) rx.2
  let rb := rand 700 1400 ry.2
  ({ d with x := rx.1, y := ry.1, base := rb.1, life := 1 }, rb.2)

/-- `new Drop()`: `constructor(){ this.reset(true); }`. -/
def Drop.new (W H : ℚ) (g : Rng) : Drop × Rng :=
  Drop.reset W H true { x := 0, y := 0, base := 0, life := 0 } g

/-- `Drop.reset(fromTop)` in double arithmetic: the same three `rand` calls, each
`randF`, on the bounds as the code computes them (`-W*0.1`, `W*1.1`, `-H*1.0`,
`-H*0.2` are rounded products with the doubles written `0.1`, `1.1`, `0.2`). -/
def Drop.resetF (W H : ℚ) (fromTop : Bool) (d : Drop) (g : Rng) : Drop × Rng :=
  let rx := randF (fl (-W * fl 0.1)) (fl (W * fl 1.1)) g
  let ry := if fromTop then randF (fl (-H * 1.0)) (-10) rx.2
    else randF (fl (-H * fl 0.2)) (-10) rx.2
  let rb := randF 700 1400 ry.2
  ({ d with x := rx.1, y := ry.1, base := rb.1, life := 1 }, rb.2)

/-! ## Splashes -/

/-- `Splash.update(dt, cfg)` (state part). -/
def Splash.update (DPR H dt : ℚ) (p : Splash) : Splash :=
  if p.life ≤ 0 then p
  else
    let vy := p.vy + 1800 * dt
    let x := p.x + p.vx * dt * DPR
    let y := p.y + vy * dt * DPR
    let life := p.life - dt
    if y > H ∨ life ≤ 0 then { p with vy := vy, x := x, y := y, life := 0 }
    else { p with vy := vy, x := x, y := y, life := life }

/-- The body of the `for` loop of `makeSplash`, run `k` more times, in double
arithmetic: the three `rand` calls are `randF` on the doubles written in the
source, and the products are rounded. -/
def makeSplashLoop (m : MathLib) (x y power : ℚ) :
    Nat → List Splash → Rng → List Splash × Rng
  | 0, sp, g => (sp, g)
  | k + 1, sp, g =>
    let a := randF (fl (-m.PI * fl 0.9)) (fl (-m.PI * fl 0.1)) g
    let sr := randF 80 260 a.2
    let sv := fl (sr.1 * fl (power * 0.25))
    let lf := randF (fl 0.15) (fl 0.35) sr.2
    makeSplashLoop m x y power k
      (sp ++ [{ x := x, y := y, vx := fl (m.cos a.1 * sv), vy := fl (m.sin a.1 * sv),
                life := lf.1 }])
      lf.2

/-- The loop bound of `makeSplash`: `n = 5 + (power*0.5|0)`. -/
def splashCount (power : ℚ) : Int := 5 + toInt32 (power * 0.5)

/-- `function makeSplash(x, y, power)`. -/
def makeSplash (m : MathLib) (x y power : ℚ) (s : Sim) : Sim :=
  let r := makeSplashLoop m x y power (splashCount power).toNat s.splashes s.rng
  { s with splashes := r.1, rng := r.2 }

/-! ## `Drop.update` -/

/-- The velocity `(vx, vy)` computed at the top of `Drop.update`. -/
def Drop.velocity (m : MathLib) (cfg : Config) (d : Drop) : ℚ × ℚ :=
  let theta := cfg.wind * m.PI / 180
  let v := d.base * cfg.speed
  (m.sin theta * v, m.cos theta * v)

/-- The position advance of `Drop.update`:
`this.x += vx * dt * DPR; this.y += vy * dt * DPR`. -/
def Drop.advance (m : MathLib) (DPR dt : ℚ) (cfg : Config) (d : Drop) : Drop :=
  { d with x := d.x + (Drop.velocity m cfg d).1 * dt * DPR,
           y := d.y + (Drop.velocity m cfg d).2 * dt * DPR }

/-- The statement `if(cfg.splash) makeSplash(this.x, H-2, v*0.012);` of
`Drop.update`, for a drop at horizontal position `x`. -/
def splashState (m : MathLib) (cfg : Config) (v x : ℚ) (s : Sim) : Sim :=
  if cfg.splash then makeSplash m x (s.H - 2) (v * 0.012) s else s

/-- The `if(this.y > H){ ... }` block of `Drop.update`, applied to the drop
after its position advance; `v` is `base * speed` read before the block. -/
def Drop.recycle (m : MathLib) (cfg : Config) (v : ℚ) (d : Drop) (s : Sim) : Drop × Sim :=
  if d.y > s.H then
    let dead : Drop := { d with life := 0 }
    let s1 := splashState m cfg v dead.x s
    let r := Drop.reset s1.W s1.H true dead s1.rng
    (r.1, { s1 with rng := r.2 })
  else (d, s)

/-- The horizontal wrap of `Drop.update`. -/
def Drop.wrap (W : ℚ) (d : Drop) : Drop :=
  let d1 : Drop := if d.x < -W * 0.2 then { d with x := d.x + W * 1.4 } else d
  if d1.x > W * 1.2 then { d1 with x := d1.x - W * 1.4 } else d1

/-- `Drop.update(dt, cfg)` (state part). -/
def Drop.update (m : MathLib) (dt : ℚ) (cfg : Config) (d : Drop) (s : Sim) : Drop × Sim :=
  if d.life ≤ 0 then (d, s)
  else
    let r := Drop.recycle m cfg (d.base * cfg.speed) (Drop.advance m s.DPR dt cfg d) s
    (Drop.wrap r.2.W r.1, r.2)

/-! ## `Drop.update` in double arithmetic -/

/-- The velocity `(vx, vy)` of `Drop.update` in double arithmetic:
`theta = cfg.wind * Math.PI/180`, `v = this.base * cfg.speed`,
`vx = Math.sin(theta) * v`, `vy = Math.cos(theta) * v`, each operation rounded. -/
def Drop.velocityF (m : MathLib) (cfg : Config) (d : Drop) : ℚ × ℚ :=
  let theta := fl (fl (cfg.wind * m.PI) / 180)
  let v := fl (d.base * cfg.speed)
  (fl (m.sin theta * v), fl (m.cos theta * v))

/-- The horizontal displacement `vx * dt * DPR` of one `Drop.update` step, as
the code computes it. -/
def Drop.shiftF (m : MathLib) (DPR dt : ℚ) (cfg : Config) (d : Drop) : ℚ :=
  fl (fl ((Drop.velocityF m cfg d).1 * dt) * DPR)

/-- The position advance of `Drop.update` in double arithmetic:
`this.x += vx * dt * DPR; this.y += vy * dt * DPR`. -/
def Drop.advanceF (m : MathLib) (DPR dt : ℚ) (cfg : Config) (d : Drop) : Drop :=
  { d with x := fl (d.x + Drop.shiftF m DPR dt cfg d),
           y := fl (d.y + fl (fl ((Drop.velocityF m cfg d).2 * dt) * DPR)) }

/-- The `if(this.y > H){ ... }` block of `Drop.update` in double arithmetic,
applied to the drop after its position advance; `v` is `base * speed`. -/
def Drop.recycleF (m : MathLib) (cfg : Config) (v : ℚ) (d : Drop) (s : Sim) : Drop × Sim :=
  if d.y > s.H then
    let dead : Drop := { d with life := 0 }
    let s1 := if cfg.splash then makeSplash m dead.x (fl (s.H - 2)) (fl (v * fl 0.012)) s
      else s
    let r := Drop.resetF s1.W s1.H true dead s1.rng
    (r.1, { s1 with rng := r.2 })
  else (d, s)

/-- The horizontal wrap of `Drop.update` in double arithmetic: the bounds
`-W*0.2`, `W*1.2` and the step `W*1.4` are rounded products, and so are the
sums. -/
def Drop.wrapF (W : ℚ) (d : Drop) : Drop :=
  let d1 : Drop :=
    if d.x < fl (-W * fl 0.2) then { d with x := fl (d.x + fl (W * fl 1.4)) } else d
  if d1.x > fl (W * fl 1.2) then { d1 with x := fl (d1.x - fl (W * fl 1.4)) } else d1

/-- `Drop.update(dt, cfg)` (state part) in double arithmetic. -/
def Drop.updateF (m : MathLib) (dt : ℚ) (cfg : Config) (d : Drop) (s : Sim) : Drop × Sim :=
  if d.life ≤ 0 then (d, s)
  else
    let r := Drop.recycleF m cfg (fl (d.base * cfg.speed)) (Drop.advanceF m s.DPR dt cfg d) s
    (Drop.wrapF r.2.W r.1, r.2)

/-! ## Pool maintenance -/

/-- `for(let i=0;i<need;i++) drops.push(new Drop());` run `k` more times. -/
def pushDrops (W H : ℚ) : Nat → List Drop → Rng → List Drop × Rng
  | 0, ds, g => (ds, g)
  | k + 1, ds, g =>
    let r := Drop.new W H g
    pushDrops W H k (ds ++ [r.1]) r.2

/-- `Array.prototype.splice(start)` with one argument: everything from the
(relative) index `start` on is removed. -/
def spliceFrom {α : Type} (start : Int) (l : List α) : List α :=
  l.take (if start < 0 then ((l.length : Int) + start).toNat else start.toNat)

/-- `function ensureDrops()`. -/
def ensureDrops (s : Sim) : Sim :=
  let need : Int := s.targetCount - (s.drops.length : Int)
  let r := pushDrops s.W s.H need.toNat s.drops s.rng
  let ds := if need < 0 then spliceFrom s.targetCount r.1 else r.1
  { s with drops := ds, rng := r.2 }

/-! ## Lightning, keyboard and the frame loop -/

/-- `function triggerLightning()`: only the overlay is touched. -/
def triggerLightning (s : Sim) : Sim := { s with flashes := s.flashes + 1 }

/-- The fields of a `keydown` event read by the handler. -/
structure KeyEvent where
  code : String
  key : String

/-- The `keydown` listener. -/
def keydown (e : KeyEvent) (s : Sim) : Sim :=
  if e.code = "Space" then { s with paused := !s.paused }
  else if e.key = "l" ∨ e.key = "L" then triggerLightning s
  else if e.key = "r" ∨ e.key = "R" then
    ensureDrops { s with drops := [], splashes := [] }
  else s

/-- The `input` listener of the density control: `resize(); ensureDrops();`. -/
def densityInput (density : Int) (w h : ℚ) (s : Sim) : Sim :=
  ensureDrops (resize density w h s)

/-- `const dt = Math.min(0.033, (now - last)/1000)`. -/
def frameDt (now last : ℚ) : ℚ := min 0.033 ((now - last) / 1000)

/-- `for(let i=0;i<drops.length;i++) drops[i].update(dt, cfg);` over the
drops still to visit; returns the updated drops and the state. -/
def updateDrops (m : MathLib) (dt : ℚ) (cfg : Config) : List Drop → Sim → List Drop × Sim
  | [], s => ([], s)
  | d :: ds, s =>
    let r := Drop.update m dt cfg d s
    let rest := updateDrops m dt cfg ds r.2
    (r.1 :: rest.1, rest.2)

/-- The backward splash loop
`for(let i=splashes.length-1;i>=0;i--){ p.update(dt,cfg); if(p.life<=0) splashes.splice(i,1); }`
with `k = i + 1` indices still to visit. -/
def splashPass (DPR H dt : ℚ) : Nat → List Splash → List Splash
  | 0, l => l
  | i + 1, l =>
    match l[i]? with
    | none => splashPass DPR H dt i l
    | some p =>
      let q := Splash.update DPR H dt p
      let l1 := l.set i q
      splashPass DPR H dt i (if q.life ≤ 0 then l1.eraseIdx i else l1)

/-- The `if(cfg.lightning){ ... }` block of `loop`; `Math.random()` is only
called when the timer has run out (`&&` short-circuits). -/
def lightningStep (dt : ℚ) (cfg : Config) (s : Sim) : Sim :=
  if cfg.lightning then
    let s1 := { s with lightningTimer := s.lightningTimer - dt }
    if s1.lightningTimer ≤ 0 then
      let r := s1.rng.next
      if r.1 < 0.0015 then
        let s2 := triggerLightning { s1 with rng := r.2 }
        let t := rand 5 18 s2.rng
        { s2 with lightningTimer := t.1, rng := t.2 }
      else { s1 with rng := r.2 }
    else s1
  else s

/-- `function loop(now)`, with the value `getConfig()` would return as input. -/
def loop (m : MathLib) (cfg : Config) (now : ℚ) (s : Sim) : Sim :=
  let dt := frameDt now s.last
  let s1 := { s with last := now }
  let s5 :=
    if !s1.paused then
      let s2 := ensureDrops s1
      let r := updateDrops m dt cfg s2.drops s2
      let s3 := { r.2 with drops := r.1 }
      let s4 := { s3 with splashes := splashPass s3.DPR s3.H dt s3.splashes.length s3.splashes }
      lightningStep dt cfg s4
    else s1
  { s5 with frames := s5.frames + 1 }

/-! ## Concrete instances used by the closed statements below -/

/-- A rational stand-in for the `Math` object: `PI ≈ 355/113` and the leading
terms of the sine and cosine series (exact at `0`). -/
def approxMath : MathLib :=
  { PI := 355 / 113, sin := fun t => t - t ^ 3 / 6, cos := fun t => 1 - t ^ 2 / 2 }

/-- The values of the `Math` object at the cardinal angles: `Math.PI` is the
double `3.141592653589793`, `Math.sin(±Math.PI/2) = ±1` and
`Math.cos(±Math.PI/2) = 6.123233995736766e-17`; elsewhere the leading terms of
the series (exact at `0`). -/
def cardinalMath : MathLib :=
  { PI := 884279719003555 / 281474976710656,
    sin := fun t =>
      if t = 884279719003555 / 562949953421312 then 1
      else if t = -(884279719003555 / 562949953421312) then -1
      else t - t ^ 3 / 6,
    cos := fun t =>
      if t = 884279719003555 / 562949953421312 ∨ t = -(884279719003555 / 562949953421312)
      then 4967757600021511 / 81129638414606681695789005144064
      else 1 - t ^ 2 / 2 }

/-- A `Math.random()` stream that returns the same sample every time. -/
def constRng (r : ℚ) : Rng := { samples := fun _ => r, pos := 0 }

/-- A configuration with the given speed and wind, splashes switched as given. -/
def mkConfig (speed wind : ℚ) (splash : Bool) : Config :=
  { speed := speed, wind := wind, thickness := 1, color := "#9cc7ff",
    splash := splash, lightning := false }

/-- The globals right after script start-up on a `W × H` surface with `DPR = 1`,
an empty pool and the given random stream. -/
def startSim (W H : ℚ) (targetCount : Int) (g : Rng) : Sim :=
  { W := W, H := H, DPR := 1, targetCount := targetCount, drops := [], splashes := [],
    paused := false, lightningTimer := 0, last := 0, rng := g, flashes := 0, frames := 0 }

/-- A `Math.random()` stream that returns the listed samples first and `d` ever
after. -/
def seqRng (l : List ℚ) (d : ℚ) : Rng := { samples := fun i => l.getD i d, pos := 0 }

/-- A configuration with ambient lightning enabled (speed 1, no wind). -/
def stormConfig : Config :=
  { speed := 1, wind := 0, thickness := 1, color := "#9cc7ff", splash := true,
    lightning := true }

/-- The globals when the script has finished loading (lines 16-31, 105 and 140
of `main.js`): `DPR` from `window.devicePixelRatio`, `targetCount = 900` replaced
by the first `resize()`, empty pools, not paused, `lightningTimer = 0` and
`last = performance.now()`. -/
def initSim (devicePixelRatio : ℚ) (density : Int) (w h now : ℚ) (g : Rng) : Sim :=
  resize density w h
    { W := 0, H := 0, DPR := initDPR devicePixelRatio, targetCount := 900, drops := [],
      splashes := [], paused := false, lightningTimer := 0, last := now, rng := g,
      flashes := 0, frames := 0 }

/-- The states the script can be in between two event callbacks: the state after
loading, and every state obtained from one of them by a `resize` event, an
`input` event of the density control, a `keydown` event or a `loop` tick. -/
inductive Reachable (m : MathLib) : Sim → Prop
  | start (devicePixelRatio : ℚ) (density : Int) (w h now : ℚ) (g : Rng) :
      Reachable m (initSim devicePixelRatio density w h now g)
  | resize (density : Int) (w h : ℚ) (s : Sim) :
      Reachable m s → Reachable m (resize density w h s)
  | densityInput (density : Int) (w h : ℚ) (s : Sim) :
      Reachable m s → Reachable m (densityInput density w h s)
  | keydown (e : KeyEvent) (s : Sim) :
      Reachable m s → Reachable m (keydown e s)
  | loop (cfg : Config) (now : ℚ) (s : Sim) :
      Reachable m s → Reachable m (loop m cfg now s)

/-! ## Auxiliary lemmas -/

theorem rand_samples (a b : ℚ) (g : Rng) : (rand a b g).2.samples = g.samples := rfl

theorem rand_valid (a b : ℚ) (g : Rng) (hg : g.Valid) : (rand a b g).2.Valid := hg

theorem constRng_valid (r : ℚ) (h0 : 0 ≤ r) (h1 : r < 1) : (constRng r).Valid :=
  fun _ => ⟨h0, h1⟩

/-- With `a ≤ b` and a sample in `[0,1)`, `rand a b` lies in `[a, b]`, and below
`b` when `a < b`. -/
theorem rand_bounds (a b : ℚ) (g : Rng) (hg : g.Valid) (hab : a ≤ b) :
    a ≤ (rand a b g).1 ∧ (rand a b g).1 ≤ b ∧ (a < b → (rand a b g).1 < b) := by
  obtain ⟨h0, h1⟩ := hg g.pos
  have hd : 0 ≤ b - a := sub_nonneg.mpr hab
  simp only [rand, Rng.next]
  refine ⟨by nlinarith, by nlinarith, fun hlt => ?_⟩
  have hd2 : 0 < b - a := sub_pos.mpr hlt
  nlinarith

theorem pushDrops_append (W H : ℚ) (k : Nat) (ds : List Drop) (g : Rng) :
    (pushDrops W H k ds g).1 = ds ++ (pushDrops W H k [] g).1 := by
  induction k generalizing ds g with
  | zero => simp [pushDrops]
  | succ k ih =>
    simp only [pushDrops]
    rw [ih (ds ++ [(Drop.new W H g).1]), ih ([] ++ [(Drop.new W H g).1])]
    simp

theorem pushDrops_length (W H : ℚ) (k : Nat) (ds : List Drop) (g : Rng) :
    (pushDrops W H k ds g).1.length = ds.length + k := by
  induction k generalizing ds g with
  | zero => simp [pushDrops]
  | succ k ih =>
    simp only [pushDrops]
    rw [ih]
    simp
    omega

/-! ## Rounding to the nearest double -/

theorem roundEven_intCast (n : Int) : roundEven (n : ℚ) = n := by
  simp [roundEven]

theorem roundEven_le (y : ℚ) : (roundEven y : ℚ) ≤ y + 1 / 2 := by
  have h1 := Int.floor_le y
  have h2 := Int.lt_floor_add_one y
  unfold roundEven
  split_ifs with a b c
  · linarith
  · push_cast; linarith
  · linarith
  · push_cast; linarith

theorem roundEven_ge (y : ℚ) : y - 1 / 2 ≤ (roundEven y : ℚ) := by
  have h1 := Int.floor_le y
  have h2 := Int.lt_floor_add_one y
  unfold roundEven
  split_ifs with a b c
  · linarith
  · push_cast; linarith
  · linarith
  · push_cast; linarith

theorem roundEven_mono {y z : ℚ} (h : y ≤ z) : roundEven y ≤ roundEven z := by
  have hf : ⌊y⌋ ≤ ⌊z⌋ := Int.floor_mono h
  have hy1 := Int.floor_le y
  have hz1 := Int.floor_le z
  have hy2 := Int.lt_floor_add_one y
  have hz2 := Int.lt_floor_add_one z
  rcases lt_or_eq_of_le hf with hlt | heq
  · -- roundEven y ≤ ⌊y⌋ + 1 ≤ ⌊z⌋ ≤ roundEven z
    have a : roundEven y ≤ ⌊y⌋ + 1 := by
      unfold roundEven
      split_ifs <;> omega
    have b : ⌊z⌋ ≤ roundEven z := by
      unfold roundEven
      split_ifs <;> omega
    omega
  · unfold roundEven
    rw [← heq]
    have hyz : y - ⌊y⌋ ≤ z - ⌊y⌋ := by linarith
    split_ifs <;> first | omega | (exfalso; linarith)

theorem roundEven_neg (y : ℚ) : roundEven (-y) = -roundEven y := by
  by_cases hy : (⌊y⌋ : ℚ) = y
  · have e1 : -y = ((-⌊y⌋ : Int) : ℚ) := by push_cast; rw [hy]
    have e2 : y = ((⌊y⌋ : Int) : ℚ) := hy.symm
    rw [e1, roundEven_intCast]
    conv_rhs => rw [e2, roundEven_intCast]
  · have h1 := Int.floor_le y
    have h2 := Int.lt_floor_add_one y
    have hlt : (⌊y⌋ : ℚ) < y := lt_of_le_of_ne h1 hy
    have hf : ⌊-y⌋ = -⌊y⌋ - 1 := by
      rw [Int.floor_eq_iff]
      push_cast
      constructor <;> linarith
    unfold roundEven
    rw [hf]
    push_cast
    split_ifs <;> first | omega | (exfalso; linarith)

theorem two_zpow_pos (e : Int) : (0 : ℚ) < 2 ^ e := zpow_pos (by norm_num) e

theorem log_eq_of_bounds {x : ℚ} {e : Int} (h1 : (2 : ℚ) ^ e ≤ x) (h2 : x < (2 : ℚ) ^ (e + 1)) :
    Int.log 2 x = e := by
  have hx : 0 < x := lt_of_lt_of_le (two_zpow_pos e) h1
  have a : e ≤ Int.log 2 x := by
    rw [← Int.zpow_le_iff_le_log (by norm_num) hx]
    exact_mod_cast h1
  have b : Int.log 2 x < e + 1 := by
    rw [← Int.lt_zpow_iff_log_lt (by norm_num) hx]
    exact_mod_cast h2
  omega

theorem log_bounds {x : ℚ} (hx : 0 < x) :
    (2 : ℚ) ^ Int.log 2 x ≤ x ∧ x < (2 : ℚ) ^ (Int.log 2 x + 1) := by
  have a := Int.zpow_log_le_self (b := 2) (r := x) (by norm_num) hx
  have b := Int.lt_zpow_succ_log_self (b := 2) (by norm_num) x
  exact ⟨by exact_mod_cast a, by exact_mod_cast b⟩

/-- Evaluation of `fl` once the binade of `x` is known. -/
theorem fl_eval {x : ℚ} (e n : Int) (h1 : (2 : ℚ) ^ e ≤ |x|) (h2 : |x| < (2 : ℚ) ^ (e + 1))
    (hr : roundEven (x / 2 ^ (e - 52)) = n) : fl x = n * 2 ^ (e - 52) := by
  unfold fl ulpExp
  rw [log_eq_of_bounds h1 h2, hr]

theorem fl_zero : fl 0 = 0 := by
  simp [fl, roundEven]

theorem fl_neg (x : ℚ) : fl (-x) = -fl x := by
  unfold fl ulpExp
  rw [abs_neg, neg_div, roundEven_neg]
  push_cast
  ring

theorem zpow_split (e : Int) : (2 : ℚ) ^ e = 4503599627370496 * 2 ^ (e - 52) := by
  have h : (4503599627370496 : ℚ) = 2 ^ (52 : Int) := by norm_num
  rw [h, ← zpow_add₀ (by norm_num : (2 : ℚ) ≠ 0)]
  congr 1
  omega

theorem zpow_split_succ (e : Int) : (2 : ℚ) ^ (e + 1) = 9007199254740992 * 2 ^ (e - 52) := by
  have h : (9007199254740992 : ℚ) = 2 ^ (53 : Int) := by norm_num
  rw [h, ← zpow_add₀ (by norm_num : (2 : ℚ) ≠ 0)]
  congr 1
  omega

/-- A positive number and its rounding lie in the same closed binade. -/
theorem fl_pos_bounds {x : ℚ} (hx : 0 < x) :
    (2 : ℚ) ^ Int.log 2 x ≤ fl x ∧ fl x ≤ (2 : ℚ) ^ (Int.log 2 x + 1) := by
  obtain ⟨h1, h2⟩ := log_bounds hx
  have hg := two_zpow_pos (Int.log 2 x - 52)
  have habs : |x| = x := abs_of_pos hx
  have lo : ((4503599627370496 : Int) : ℚ) ≤ x / 2 ^ (Int.log 2 x - 52) := by
    rw [le_div_iff₀ hg]
    push_cast
    rw [← zpow_split]
    exact h1
  have hi : x / 2 ^ (Int.log 2 x - 52) ≤ ((9007199254740992 : Int) : ℚ) := by
    rw [div_le_iff₀ hg]
    push_cast
    rw [← zpow_split_succ]
    exact le_of_lt h2
  have rlo := roundEven_mono lo
  have rhi := roundEven_mono hi
  rw [roundEven_intCast] at rlo rhi
  have rlo2 : (4503599627370496 : ℚ) ≤ (roundEven (x / 2 ^ (Int.log 2 x - 52)) : ℚ) := by
    exact_mod_cast rlo
  have rhi2 : (roundEven (x / 2 ^ (Int.log 2 x - 52)) : ℚ) ≤ 9007199254740992 := by
    exact_mod_cast rhi
  unfold fl ulpExp
  rw [habs, zpow_split (Int.log 2 x), zpow_split_succ (Int.log 2 x)]
  constructor
  · exact mul_le_mul_of_nonneg_right rlo2 (le_of_lt hg)
  · exact mul_le_mul_of_nonneg_right rhi2 (le_of_lt hg)

theorem fl_pos {x : ℚ} (hx : 0 < x) : 0 < fl x :=
  lt_of_lt_of_le (two_zpow_pos _) (fl_pos_bounds hx).1

theorem fl_mono_pos {x y : ℚ} (hx : 0 < x) (h : x ≤ y) : fl x ≤ fl y := by
  have hy : 0 < y := lt_of_lt_of_le hx h
  have hl : Int.log 2 x ≤ Int.log 2 y := Int.log_mono_right hx h
  rcases lt_or_eq_of_le hl with hlt | heq
  · have a := (fl_pos_bounds hx).2
    have b := (fl_pos_bounds hy).1
    have c : (2 : ℚ) ^ (Int.log 2 x + 1) ≤ 2 ^ Int.log 2 y :=
      zpow_le_zpow_right₀ (by norm_num) (by omega)
    linarith
  · unfold fl ulpExp
    rw [abs_of_pos hx, abs_of_pos hy, heq]
    have hg := two_zpow_pos (Int.log 2 y - 52)
    have hd : x / 2 ^ (Int.log 2 y - 52) ≤ y / 2 ^ (Int.log 2 y - 52) :=
      div_le_div_of_nonneg_right h (le_of_lt hg)
    have hr := roundEven_mono hd
    have hr2 : (roundEven (x / 2 ^ (Int.log 2 y - 52)) : ℚ)
        ≤ (roundEven (y / 2 ^ (Int.log 2 y - 52)) : ℚ) := by exact_mod_cast hr
    exact mul_le_mul_of_nonneg_right hr2 (le_of_lt hg)

/-- Rounding to the nearest double is monotone. -/
theorem fl_mono {x y : ℚ} (h : x ≤ y) : fl x ≤ fl y := by
  rcases lt_trichotomy 0 x with hx | hx | hx
  · exact fl_mono_pos hx h
  · rw [← hx, fl_zero]
    rcases lt_or_eq_of_le (hx ▸ h) with hy | hy
    · exact le_of_lt (fl_pos hy)
    · rw [← hy, fl_zero]
  · have hnx : 0 < -x := by linarith
    have fx : fl x < 0 := by
      have := fl_pos hnx
      rw [fl_neg] at this
      linarith
    rcases lt_trichotomy 0 y with hy | hy | hy
    · exact le_of_lt (lt_trans fx (fl_pos hy))
    · rw [← hy, fl_zero]
      exact le_of_lt fx
    · have hny : 0 < -y := by linarith
      have := fl_mono_pos hny (by linarith : -y ≤ -x)
      rw [fl_neg, fl_neg] at this
      linarith

/-- The relative rounding error is at most `2^-53`. -/
theorem fl_err (x : ℚ) : |fl x - x| ≤ |x| / 9007199254740992 := by
  rcases eq_or_ne x 0 with hx | hx
  · rw [hx, fl_zero]
    simp
  · have hax : 0 < |x| := abs_pos.mpr hx
    obtain ⟨h1, -⟩ := log_bounds hax
    have hg := two_zpow_pos (Int.log 2 |x| - 52)
    have e1 : fl x - x
        = ((roundEven (x / 2 ^ (Int.log 2 |x| - 52)) : ℚ) - x / 2 ^ (Int.log 2 |x| - 52))
          * 2 ^ (Int.log 2 |x| - 52) := by
      unfold fl ulpExp
      field_simp
    have a := roundEven_le (x / 2 ^ (Int.log 2 |x| - 52))
    have b := roundEven_ge (x / 2 ^ (Int.log 2 |x| - 52))
    have habs : |(roundEven (x / 2 ^ (Int.log 2 |x| - 52)) : ℚ)
        - x / 2 ^ (Int.log 2 |x| - 52)| ≤ 1 / 2 := by
      rw [abs_le]
      constructor <;> linarith
    rw [e1, abs_mul, abs_of_pos hg]
    rw [zpow_split] at h1
    have : |(roundEven (x / 2 ^ (Int.log 2 |x| - 52)) : ℚ) - x / 2 ^ (Int.log 2 |x| - 52)|
        * 2 ^ (Int.log 2 |x| - 52) ≤ 1 / 2 * 2 ^ (Int.log 2 |x| - 52) :=
      mul_le_mul_of_nonneg_right habs (le_of_lt hg)
    linarith

/-- Away from a tie, `roundEven` is the nearest integer. -/
theorem roundEven_of_near (y : ℚ) (n : Int) (h1 : (n : ℚ) - 1 / 2 < y) (h2 : y < n + 1 / 2) :
    roundEven y = n := by
  have a := roundEven_le y
  have b := roundEven_ge y
  have c : (roundEven y : ℚ) < n + 1 := by linarith
  have d : (n : ℚ) - 1 < roundEven y := by linarith
  have c2 : roundEven y < n + 1 := by exact_mod_cast c
  have d2 : n - 1 < roundEven y := by exact_mod_cast d
  omega

/-- A tie goes to the even neighbour. -/
theorem roundEven_tie (y : ℚ) (n : Int) (hn : n % 2 = 0)
    (h : y = n + 1 / 2 ∨ y = n - 1 / 2) : roundEven y = n := by
  rcases h with h | h
  · have hf : ⌊y⌋ = n := by
      rw [Int.floor_eq_iff]
      constructor <;> linarith
    unfold roundEven
    rw [hf, h]
    norm_num [hn]
  · have hf : ⌊y⌋ = n - 1 := by
      rw [Int.floor_eq_iff]
      push_cast
      constructor <;> linarith
    have hodd : ¬ (n - 1) % 2 = 0 := by omega
    unfold roundEven
    rw [hf, h]
    push_cast
    norm_num [hodd]


/-- Integers below `2^53` are doubles. -/
theorem fl_natCast (n : ℕ) (h : n < 9007199254740992) : fl (n : ℚ) = n := by
  rcases Nat.eq_zero_or_pos n with h0 | hpos
  · rw [h0]
    simpa using fl_zero
  · have hx : (0 : ℚ) < n := by exact_mod_cast hpos
    have hlog : Int.log 2 ((n : ℕ) : ℚ) = Nat.log 2 n := Int.log_natCast 2 n
    have he : Nat.log 2 n < 53 := by
      apply Nat.log_lt_of_lt_pow (by omega)
      norm_num
      exact h
    obtain ⟨k, hk⟩ : ∃ k : ℕ, k + Nat.log 2 n = 52 := ⟨52 - Nat.log 2 n, by omega⟩
    have hz : (2 : ℚ) ^ ((Nat.log 2 n : ℤ) - 52) * 2 ^ k = 1 := by
      rw [← zpow_natCast, ← zpow_add₀ (by norm_num : (2 : ℚ) ≠ 0)]
      have : ((Nat.log 2 n : ℤ) - 52) + (k : ℤ) = 0 := by omega
      rw [this]
      simp
    have hg := two_zpow_pos ((Nat.log 2 n : ℤ) - 52)
    have hdiv : (n : ℚ) / 2 ^ ((Nat.log 2 n : ℤ) - 52) = (((n * 2 ^ k : ℕ) : ℤ) : ℚ) := by
      rw [div_eq_iff (ne_of_gt hg)]
      push_cast
      rw [mul_assoc, mul_comm ((2 : ℚ) ^ k), hz, mul_one]
    unfold fl ulpExp
    rw [abs_of_pos hx, hlog, hdiv, roundEven_intCast]
    push_cast
    rw [mul_assoc, mul_comm ((2 : ℚ) ^ k), hz, mul_one]

theorem fl_eq_nat (x : ℚ) (n : ℕ) (hx : x = n) (h : n < 9007199254740992) : fl x = n := by
  rw [hx]
  exact fl_natCast n h

/-- Powers of two are doubles. -/
theorem fl_zpow (k : Int) : fl ((2 : ℚ) ^ k) = 2 ^ k := by
  have hp := two_zpow_pos k
  have hg := two_zpow_pos (k - 52)
  have habs : |(2 : ℚ) ^ k| = 2 ^ k := abs_of_pos hp
  have hlt : (2 : ℚ) ^ k < 2 ^ (k + 1) := zpow_lt_zpow_right₀ (by norm_num) (by omega)
  have hdiv : (2 : ℚ) ^ k / 2 ^ (k - 52) = ((4503599627370496 : Int) : ℚ) := by
    rw [div_eq_iff (ne_of_gt hg)]
    push_cast
    exact zpow_split k
  rw [fl_eval k 4503599627370496 (by rw [habs]) (by rw [habs]; exact hlt)
    (by rw [hdiv, roundEven_intCast])]
  push_cast
  exact (zpow_split k).symm

/-- A double is its own rounding. -/
theorem fl_idem (x : ℚ) : fl (fl x) = fl x := by
  have pos : ∀ z : ℚ, 0 < z → fl (fl z) = fl z := by
    intro z hz
    obtain ⟨h1, h2⟩ := fl_pos_bounds hz
    rcases lt_or_eq_of_le h2 with hlt | heq
    · have hfz : 0 < fl z := fl_pos hz
      have hg := two_zpow_pos (Int.log 2 z - 52)
      have hdef : fl z = roundEven (z / 2 ^ (Int.log 2 z - 52)) * 2 ^ (Int.log 2 z - 52) := by
        unfold fl ulpExp
        rw [abs_of_pos hz]
      have hdiv : fl z / 2 ^ (Int.log 2 z - 52)
          = ((roundEven (z / 2 ^ (Int.log 2 z - 52)) : Int) : ℚ) := by
        rw [div_eq_iff (ne_of_gt hg)]
        exact hdef
      rw [fl_eval (Int.log 2 z) (roundEven (z / 2 ^ (Int.log 2 z - 52)))
        (by rw [abs_of_pos hfz]; exact h1) (by rw [abs_of_pos hfz]; exact hlt)
        (by rw [hdiv, roundEven_intCast])]
      exact hdef.symm
    · rw [heq]
      exact fl_zpow _
  rcases lt_trichotomy 0 x with hx | hx | hx
  · exact pos x hx
  · rw [← hx, fl_zero, fl_zero]
  · have h := pos (-x) (by linarith)
    rw [fl_neg, fl_neg] at h
    linarith

theorem fl_nonneg {x : ℚ} (hx : 0 ≤ x) : 0 ≤ fl x := by
  have := fl_mono hx
  rwa [fl_zero] at this

theorem randF_samples (a b : ℚ) (g : Rng) : (randF a b g).2.samples = g.samples := rfl

/-- With `a ≤ b`, `a` a double and a sample in `[0,1)`, `randF a b` lies between
`a` and the rounded sum `(b - a) + a`. -/
theorem randF_bounds (a b : ℚ) (g : Rng) (hg : g.Valid) (ha : fl a = a) (hab : a ≤ b) :
    a ≤ (randF a b g).1 ∧ (randF a b g).1 ≤ fl (fl (b - a) + a) := by
  obtain ⟨h0, h1⟩ := hg g.pos
  have hD : 0 ≤ fl (b - a) := fl_nonneg (sub_nonneg.mpr hab)
  have hp0 : 0 ≤ fl (g.samples g.pos * fl (b - a)) := fl_nonneg (mul_nonneg h0 hD)
  have hp1 : fl (g.samples g.pos * fl (b - a)) ≤ fl (b - a) := by
    have : g.samples g.pos * fl (b - a) ≤ fl (b - a) := by nlinarith
    have h := fl_mono this
    rwa [fl_idem] at h
  simp only [randF, Rng.next]
  constructor
  · have h := fl_mono (by linarith : a ≤ fl (g.samples g.pos * fl (b - a)) + a)
    rwa [ha] at h
  · exact fl_mono (by linarith)

theorem fl_015 : fl 0.15 = 5404319552844595 / 36028797018963968 := by
  rw [fl_eval (-3) 5404319552844595 (by norm_num [abs_of_pos]) (by norm_num [abs_of_pos])
    (roundEven_of_near _ _ (by norm_num) (by norm_num))]
  norm_num

theorem fl_035 : fl 0.35 = 3152519739159347 / 9007199254740992 := by
  rw [fl_eval (-2) 6305039478318694 (by norm_num [abs_of_pos]) (by norm_num [abs_of_pos])
    (roundEven_of_near _ _ (by norm_num) (by norm_num))]
  norm_num

/-- `0.35 - 0.15` in doubles is `0.19999999999999998`. -/
theorem fl_035_sub_015 : fl (fl 0.35 - fl 0.15) = 7205759403792793 / 36028797018963968 := by
  rw [fl_035, fl_015]
  rw [fl_eval (-3) 7205759403792793 (by norm_num [abs_of_pos]) (by norm_num [abs_of_pos])
    (roundEven_of_near _ _ (by norm_num) (by norm_num))]
  norm_num

/-- `(0.35 - 0.15) + 0.15` in doubles is `0.35` again. -/
theorem fl_span_015_035 : fl (fl (fl 0.35 - fl 0.15) + fl 0.15) = fl 0.35 := by
  rw [fl_035_sub_015, fl_015, fl_035]
  rw [fl_eval (-2) 6305039478318694 (by norm_num [abs_of_pos]) (by norm_num [abs_of_pos])
    (roundEven_of_near _ _ (by norm_num) (by norm_num))]
  norm_num

/-- With the sample `1 - 2^-53`, `rand(0.15, 0.35)` in doubles is `0.35`. -/
theorem randF_015_035_top (g : Rng) (hr : g.samples g.pos = 1 - 1 / 2 ^ 53) :
    (randF (fl 0.15) (fl 0.35) g).1 = fl 0.35 := by
  simp only [randF, Rng.next, hr]
  rw [fl_035_sub_015]
  have e1 : fl (((1 : ℚ) - 1 / 2 ^ 53) * (7205759403792793 / 36028797018963968))
      = 900719925474099 / 4503599627370496 := by
    rw [fl_eval (-3) 7205759403792792 (by norm_num [abs_of_pos]) (by norm_num [abs_of_pos])
      (roundEven_of_near _ _ (by norm_num) (by norm_num))]
    norm_num
  rw [e1, fl_015, fl_035]
  rw [fl_eval (-2) 6305039478318694 (by norm_num [abs_of_pos]) (by norm_num [abs_of_pos])
    (roundEven_tie _ _ (by decide) (Or.inr (by norm_num)))]
  norm_num

/-- The product of a double `fl z` with a sample `r ≤ 1 - 2^-53`, rounded, does not
exceed `z`: rounding `z` up is undone by the factor `r`. -/
theorem fl_mul_le (z r : ℚ) (hz : 0 ≤ z) (hr0 : 0 ≤ r) (hr : r ≤ 1 - 1 / 2 ^ 53) :
    fl (r * fl z) ≤ z := by
  rcases eq_or_lt_of_le hz with h0 | hzpos
  · rw [← h0, fl_zero, mul_zero, fl_zero]
  · obtain ⟨hz1, hz2⟩ := log_bounds hzpos
    have hg := two_zpow_pos (Int.log 2 z - 52)
    have hD : fl z = roundEven (z / 2 ^ (Int.log 2 z - 52)) * 2 ^ (Int.log 2 z - 52) := by
      unfold fl ulpExp
      rw [abs_of_pos hzpos]
    have hDpos : 0 < fl z := fl_pos hzpos
    obtain ⟨hb1, hb2⟩ := fl_pos_bounds hzpos
    have hzg : z / 2 ^ (Int.log 2 z - 52) * 2 ^ (Int.log 2 z - 52) = z :=
      div_mul_cancel₀ z (ne_of_gt hg)
    -- `D ≤ z + g/2`
    have hup : fl z ≤ z + 2 ^ (Int.log 2 z - 52) / 2 := by
      have := roundEven_le (z / 2 ^ (Int.log 2 z - 52))
      have h2 := mul_le_mul_of_nonneg_right this (le_of_lt hg)
      rw [hD]
      linarith
    have hy0 : 0 ≤ r * fl z := mul_nonneg hr0 (le_of_lt hDpos)
    rcases eq_or_lt_of_le hy0 with hy | hypos
    · rw [← hy, fl_zero]
      exact hz
    · by_cases hlow : r * fl z < 2 ^ Int.log 2 z
      · -- the product is in a lower binade
        have hl : Int.log 2 (r * fl z) < Int.log 2 z := by
          rw [← Int.lt_zpow_iff_log_lt (by norm_num) hypos]
          exact_mod_cast hlow
        have h1 := (fl_pos_bounds hypos).2
        have h2 : (2 : ℚ) ^ (Int.log 2 (r * fl z) + 1) ≤ 2 ^ Int.log 2 z :=
          zpow_le_zpow_right₀ (by norm_num) (by omega)
        linarith
      · push_neg at hlow
        have hylt : r * fl z < fl z := by nlinarith
        have hfy : fl (r * fl z)
            = roundEven (r * fl z / 2 ^ (Int.log 2 z - 52)) * 2 ^ (Int.log 2 z - 52) :=
          fl_eval (Int.log 2 z) _ (by rw [abs_of_pos hypos]; exact hlow)
            (by rw [abs_of_pos hypos]; exact lt_of_lt_of_le hylt hb2) rfl
        -- `D * 2^-53 > g / 2` because `D > 2^e`
        have hDgt : (2 : ℚ) ^ Int.log 2 z < fl z := lt_of_le_of_lt hlow hylt
        have hsplit := zpow_split (Int.log 2 z)
        have e53 : (2 : ℚ) ^ 53 = 9007199254740992 := by norm_num
        have hyle : r * fl z ≤ fl z - fl z / 9007199254740992 := by
          rw [e53] at hr
          nlinarith
        have hyg : r * fl z / 2 ^ (Int.log 2 z - 52) * 2 ^ (Int.log 2 z - 52) = r * fl z :=
          div_mul_cancel₀ _ (ne_of_gt hg)
        have hr1 := roundEven_le (r * fl z / 2 ^ (Int.log 2 z - 52))
        have hr2 := mul_le_mul_of_nonneg_right hr1 (le_of_lt hg)
        -- `fl (r D) < D`
        have hlt : (roundEven (r * fl z / 2 ^ (Int.log 2 z - 52)) : ℚ)
              * 2 ^ (Int.log 2 z - 52)
            < (roundEven (z / 2 ^ (Int.log 2 z - 52)) : ℚ) * 2 ^ (Int.log 2 z - 52) := by
          rw [← hD]
          rw [hsplit] at hDgt
          linarith
        have hlt2 : (roundEven (r * fl z / 2 ^ (Int.log 2 z - 52)) : ℚ)
            < (roundEven (z / 2 ^ (Int.log 2 z - 52)) : ℚ) :=
          lt_of_mul_lt_mul_right hlt (le_of_lt hg)
        have hle : roundEven (r * fl z / 2 ^ (Int.log 2 z - 52)) + 1
            ≤ roundEven (z / 2 ^ (Int.log 2 z - 52)) := by
          have : roundEven (r * fl z / 2 ^ (Int.log 2 z - 52))
              < roundEven (z / 2 ^ (Int.log 2 z - 52)) := by exact_mod_cast hlt2
          omega
        have hle2 : (roundEven (r * fl z / 2 ^ (Int.log 2 z - 52)) : ℚ) + 1
            ≤ (roundEven (z / 2 ^ (Int.log 2 z - 52)) : ℚ) := by exact_mod_cast hle
        have hle3 := mul_le_mul_of_nonneg_right hle2 (le_of_lt hg)
        rw [hfy]
        rw [hD] at hup
        linarith

/-- A double below `1` is at most `1 - 2^-53`. -/
theorem double_lt_one (r : ℚ) (hfl : fl r = r) (h0 : 0 ≤ r) (h1 : r < 1) :
    r ≤ 1 - 1 / 2 ^ 53 := by
  rcases eq_or_lt_of_le h0 with hz | hpos
  · rw [← hz]
    norm_num
  · obtain ⟨hl1, hl2⟩ := log_bounds hpos
    have hneg : Int.log 2 r < 0 := by
      rw [← Int.lt_zpow_iff_log_lt (by norm_num) hpos]
      simpa using h1
    by_cases he : Int.log 2 r = -1
    · have hD : r = roundEven (r / 2 ^ (Int.log 2 r - 52)) * 2 ^ (Int.log 2 r - 52) := by
        conv_lhs => rw [← hfl]
        unfold fl ulpExp
        rw [abs_of_pos hpos]
      rw [he] at hD
      have hg : (2 : ℚ) ^ ((-1 : ℤ) - 52) = 1 / 9007199254740992 := by
        have : ((-1 : ℤ) - 52) = -53 := by norm_num
        rw [this, zpow_neg]
        norm_num
      rw [hg] at hD
      have hN : (roundEven (r / (1 / 9007199254740992)) : ℚ) < 9007199254740992 := by
        have : (roundEven (r / (1 / 9007199254740992)) : ℚ) * (1 / 9007199254740992) < 1 := by
          rw [← hD]
          exact h1
        linarith
      have hN2 : roundEven (r / (1 / 9007199254740992)) ≤ 9007199254740991 := by
        have : roundEven (r / (1 / 9007199254740992)) < 9007199254740992 := by
          exact_mod_cast hN
        omega
      have hN3 : (roundEven (r / (1 / 9007199254740992)) : ℚ) ≤ 9007199254740991 := by
        exact_mod_cast hN2
      rw [hD]
      norm_num
      linarith
    · have hle : Int.log 2 r + 1 ≤ -1 := by omega
      have : (2 : ℚ) ^ (Int.log 2 r + 1) ≤ 2 ^ (-1 : ℤ) :=
        zpow_le_zpow_right₀ (by norm_num) hle
      have h2 : (2 : ℚ) ^ (-1 : ℤ) = 1 / 2 := by norm_num
      rw [h2] at this
      have : r < 1 / 2 := lt_of_lt_of_le hl2 this
      norm_num
      linarith

theorem validF_of_samples {g1 g2 : Rng} (h : g2.samples = g1.samples) (hg : g1.ValidF) :
    g2.ValidF := by
  intro i
  rw [h]
  exact hg i

/-- For doubles `a ≤ b` and a double sample in `[0,1)`, `rand(a,b)` computed in
doubles stays in the closed interval `[a, b]`. -/
theorem randF_range (a b : ℚ) (g : Rng) (hg : g.ValidF) (ha : fl a = a) (hb : fl b = b)
    (hab : a ≤ b) : a ≤ (randF a b g).1 ∧ (randF a b g).1 ≤ b := by
  obtain ⟨hfl, h0, h1⟩ := hg g.pos
  have hr := double_lt_one _ hfl h0 h1
  have hp1 := fl_mul_le (b - a) (g.samples g.pos) (sub_nonneg.mpr hab) h0 hr
  have hp0 : 0 ≤ fl (g.samples g.pos * fl (b - a)) :=
    fl_nonneg (mul_nonneg h0 (fl_nonneg (sub_nonneg.mpr hab)))
  simp only [randF, Rng.next]
  constructor
  · have h := fl_mono (by linarith : a ≤ fl (g.samples g.pos * fl (b - a)) + a)
    rwa [ha] at h
  · have h := fl_mono (by linarith : fl (g.samples g.pos * fl (b - a)) + a ≤ b)
    rwa [hb] at h

/-- The largest double below `1`. -/
theorem fl_one_sub_ulp : fl (1 - 1 / 2 ^ 53) = 1 - 1 / 2 ^ 53 := by
  rw [fl_eval (-1) 9007199254740991 (by norm_num [abs_of_pos]) (by norm_num [abs_of_pos])
    (roundEven_of_near _ _ (by norm_num) (by norm_num))]
  norm_num

theorem constRng_validF (r : ℚ) (hfl : fl r = r) (h0 : 0 ≤ r) (h1 : r < 1) :
    (constRng r).ValidF :=
  fun _ => ⟨hfl, h0, h1⟩

/-- With the sample `1 - 2^-53`, `rand(700, 1400)` in doubles is `1400`. -/
theorem randF_700_1400_top (g : Rng) (hr : g.samples g.pos = 1 - 1 / 2 ^ 53) :
    (randF 700 1400 g).1 = 1400 := by
  simp only [randF, Rng.next, hr]
  have e0 : fl ((1400 : ℚ) - 700) = 700 := fl_eq_nat _ 700 (by norm_num) (by norm_num)
  have e1 : fl (((1 : ℚ) - 1 / 2 ^ 53) * 700) = 6157265115545599 / 8796093022208 := by
    rw [fl_eval 9 6157265115545599 (by norm_num [abs_of_pos]) (by norm_num [abs_of_pos])
      (roundEven_of_near _ _ (by norm_num) (by norm_num))]
    norm_num
  rw [e0, e1]
  rw [fl_eval 10 6157265115545600 (by norm_num [abs_of_pos]) (by norm_num [abs_of_pos])
    (roundEven_tie _ _ (by decide) (Or.inr (by norm_num)))]
  norm_num

/-! ## C1: the clamped frame step -/

/-- C1 (as stated, refuted): two equal timestamps give `dt = 0`, so `0 < dt`
does not hold for every pair of timestamps seen by `loop`. -/
theorem frameDt_not_pos_of_equal_timestamps :
    frameDt 1000 1000 = 0 ∧ ¬ (0 < frameDt 1000 1000 ∧ frameDt 1000 1000 ≤ 0.033) := by
  have h : frameDt 1000 1000 = 0 := by norm_num [frameDt]
  exact ⟨h, by rw [h]; norm_num⟩

/-- C1 (amended): for every pair of timestamps the step computed by `loop` is
at most `0.033`, and it is positive exactly when `now` is later than `last`. -/
theorem frameDt_bounds (now last : ℚ) :
    frameDt now last ≤ 0.033 ∧ (0 < frameDt now last ↔ last < now) := by
  unfold frameDt
  refine ⟨min_le_left _ _, ?_⟩
  rw [lt_min_iff]
  constructor
  · rintro ⟨-, h⟩
    have : 0 < now - last := by
      by_contra hc
      push_neg at hc
      have : (now - last) / 1000 ≤ 0 := div_nonpos_of_nonpos_of_nonneg hc (by norm_num)
      linarith
    linarith
  · intro h
    exact ⟨by norm_num, div_pos (by linarith) (by norm_num)⟩

/-! ## C2, C3: `ensureDrops` -/

/-- C2: for every pool and every non-negative `targetCount`, the pool has
exactly `targetCount` drops after `ensureDrops`. -/
theorem ensureDrops_length (s : Sim) (h : 0 ≤ s.targetCount) :
    ((ensureDrops s).drops.length : Int) = s.targetCount := by
  unfold ensureDrops
  by_cases hn : s.targetCount - (s.drops.length : Int) < 0
  · have h0 : (s.targetCount - (s.drops.length : Int)).toNat = 0 := by omega
    simp only [hn, if_true, h0, pushDrops, spliceFrom]
    have : ¬ s.targetCount < 0 := by omega
    simp only [this, if_false, List.length_take]
    omega
  · simp only [hn, if_false, pushDrops_length]
    omega

/-- C2 witness: an empty pool with `targetCount = 3` grows to three drops. -/
theorem ensureDrops_length_witness :
    (0 : Int) ≤ (startSim 1280 720 3 (constRng 0)).targetCount ∧
      ((ensureDrops (startSim 1280 720 3 (constRng 0))).drops.length : Int)
        = (startSim 1280 720 3 (constRng 0)).targetCount :=
  ⟨by simp [startSim], ensureDrops_length _ (by simp [startSim])⟩

/-- C3: `ensureDrops` keeps the first `min n targetCount` drops unchanged; when
the pool grows the result is the old pool followed by freshly constructed
drops, and when it shrinks the result is the old pool truncated. -/
theorem ensureDrops_keeps_front (s : Sim) (h : 0 ≤ s.targetCount) :
    (ensureDrops s).drops.take (min s.drops.length s.targetCount.toNat)
        = s.drops.take (min s.drops.length s.targetCount.toNat) ∧
      (s.drops.length ≤ s.targetCount.toNat →
        (ensureDrops s).drops = s.drops ++
          (pushDrops s.W s.H (s.targetCount.toNat - s.drops.length) [] s.rng).1) ∧
      (s.targetCount.toNat < s.drops.length →
        (ensureDrops s).drops = s.drops.take s.targetCount.toNat) := by
  have hgrow : s.drops.length ≤ s.targetCount.toNat →
      (ensureDrops s).drops = s.drops ++
        (pushDrops s.W s.H (s.targetCount.toNat - s.drops.length) [] s.rng).1 := by
    intro hle
    have hn : ¬ s.targetCount - (s.drops.length : Int) < 0 := by omega
    have hk : (s.targetCount - (s.drops.length : Int)).toNat
        = s.targetCount.toNat - s.drops.length := by omega
    simp only [ensureDrops, hn, if_false, hk]
    exact pushDrops_append _ _ _ _ _
  have hshrink : s.targetCount.toNat < s.drops.length →
      (ensureDrops s).drops = s.drops.take s.targetCount.toNat := by
    intro hlt
    have hn : s.targetCount - (s.drops.length : Int) < 0 := by omega
    have h0 : (s.targetCount - (s.drops.length : Int)).toNat = 0 := by omega
    have hneg : ¬ s.targetCount < 0 := by omega
    simp only [ensureDrops, hn, if_true, h0, pushDrops, spliceFrom, hneg, if_false]
  refine ⟨?_, hgrow, hshrink⟩
  by_cases hle : s.drops.length ≤ s.targetCount.toNat
  · rw [hgrow hle, Nat.min_eq_left hle, List.take_left, List.take_length]
  · push_neg at hle
    rw [hshrink hle, Nat.min_eq_right (le_of_lt hle), List.take_take, Nat.min_self]

/-- C3 witness: a pool of three drops asked to hold two keeps its first two. -/
theorem ensureDrops_keeps_front_witness :
    (ensureDrops { startSim 1280 720 2 (constRng 0) with
        drops := [⟨1, 2, 700, 1⟩, ⟨3, 4, 800, 1⟩, ⟨5, 6, 900, 1⟩] }).drops
      = [⟨1, 2, 700, 1⟩, ⟨3, 4, 800, 1⟩] := by
  have h := (ensureDrops_keeps_front { startSim 1280 720 2 (constRng 0) with
        drops := [⟨1, 2, 700, 1⟩, ⟨3, 4, 800, 1⟩, ⟨5, 6, 900, 1⟩] }
        (by simp [startSim])).2.2 (by simp [startSim])
  simpa [startSim] using h

/-! ## C4: `resize` -/

theorem jsFloor_intCast (n : Int) : jsFloor (n : ℚ) = n := by
  simp [jsFloor]

theorem jsRound_intCast (n : Int) : jsRound (n : ℚ) = n := by
  unfold jsRound
  rw [Int.floor_eq_iff]
  constructor <;> norm_num

theorem fl_12 : fl 1.2 = 5404319552844595 / 4503599627370496 := by
  rw [fl_eval 0 5404319552844595 (by norm_num [abs_of_pos]) (by norm_num [abs_of_pos])
    (roundEven_of_near _ _ (by norm_num) (by norm_num))]
  norm_num

theorem fl_1280_mul_12 : fl (1280 * (5404319552844595 / 4503599627370496)) = 1536 := by
  rw [fl_eval 10 6755399441055744 (by norm_num [abs_of_pos]) (by norm_num [abs_of_pos])
    (roundEven_of_near _ _ (by norm_num) (by norm_num))]
  norm_num

theorem fl_720_mul_12 : fl (720 * (5404319552844595 / 4503599627370496)) = 864 := by
  rw [fl_eval 9 7599824371187712 (by norm_num [abs_of_pos]) (by norm_num [abs_of_pos])
    (roundEven_of_near _ _ (by norm_num) (by norm_num))]
  norm_num

/-- The target count `resize` computes when the rounded products `w * DPR` and
`h * DPR` are the integers `Wn` and `Hn` and `density * (Wn*Hn)` is `t` times
`1280*720`, with `t < 8000`. -/
theorem resize_eval (dn : ℕ) (w h : ℚ) (s : Sim) (Wn Hn : ℕ)
    (hW : fl (w * s.DPR) = Wn) (hH : fl (h * s.DPR) = Hn) (t : ℕ)
    (h2 : dn < 9007199254740992)
    (h3 : Wn * Hn < 9007199254740992) (h4 : dn * (Wn * Hn) = t * 921600)
    (h5 : t < 8000) :
    (resize (dn : ℤ) w h s).W = Wn ∧ (resize (dn : ℤ) w h s).H = Hn ∧
      (resize (dn : ℤ) w h s).targetCount = t := by
  have e1 : fl ((((dn : ℕ) : ℤ) : ℚ)) = ((dn : ℕ) : ℚ) := by
    have : ((((dn : ℕ) : ℤ) : ℚ)) = ((dn : ℕ) : ℚ) := by push_cast; rfl
    rw [this]
    exact fl_natCast _ h2
  have e2 : fl (((Wn * Hn : ℕ) : ℚ)) = ((Wn * Hn : ℕ) : ℚ) := fl_natCast _ h3
  have e3 : fl (((dn * (Wn * Hn) : ℕ) : ℚ)) = ((dn * (Wn * Hn) : ℕ) : ℚ) := by
    apply fl_natCast
    rw [h4]
    omega
  have e4 : fl ((1280 : ℚ) * 720) = 921600 := by
    have := fl_natCast 921600 (by norm_num)
    norm_num at this ⊢
    exact this
  have e5 : fl ((t : ℕ) : ℚ) = t := fl_natCast _ (by omega)
  have fW : jsFloor ((Wn : ℕ) : ℚ) = Wn := by simp [jsFloor]
  have fH : jsFloor ((Hn : ℕ) : ℚ) = Hn := by simp [jsFloor]
  have q : (((dn * (Wn * Hn) : ℕ) : ℚ)) / 921600 = ((t : ℕ) : ℚ) := by
    rw [h4]
    push_cast
    field_simp
  have r : jsRound ((t : ℕ) : ℚ) = t := by
    unfold jsRound
    rw [Int.floor_eq_iff]
    push_cast
    constructor <;> norm_num
  simp only [resize, hW, hH, fW, fH]
  refine ⟨by push_cast; rfl, by push_cast; rfl, ?_⟩
  have e2b : fl (((Wn : ℤ) : ℚ) * ((Hn : ℤ) : ℚ)) = ((Wn * Hn : ℕ) : ℚ) := by
    have : ((Wn : ℤ) : ℚ) * ((Hn : ℤ) : ℚ) = ((Wn * Hn : ℕ) : ℚ) := by push_cast; ring
    rw [this, e2]
  have e3b : fl (((dn : ℕ) : ℚ) * ((Wn * Hn : ℕ) : ℚ)) = ((dn * (Wn * Hn) : ℕ) : ℚ) := by
    have : ((dn : ℕ) : ℚ) * ((Wn * Hn : ℕ) : ℚ) = ((dn * (Wn * Hn) : ℕ) : ℚ) := by
      push_cast; ring
    rw [this, e3]
  rw [e1, e2b, e3b, e4, q, e5, r]
  omega

/-- C4: `resize` sets `W = floor(w*DPR)`, `H = floor(h*DPR)` and
`targetCount = min(round(density*(W*H)/(1280*720)), 8000)`, every product and the
quotient being the double the code computes; so `targetCount` never exceeds 8000,
density 900 on a 1280x720 viewport at `DPR = 1` gives 900, and density 900 on a
2560x1440 surface (2560x1440 at `DPR = 1`, or 1280x720 at `DPR = 2`) gives 3600.
With the double `DPR = 1.2` a 1280x720 viewport gives `W = 1536`, `H = 864` and
`targetCount = 1296`. -/
theorem resize_targetCount (density : Int) (w h : ℚ) (s : Sim) :
    (resize density w h s).W = ⌊fl (w * s.DPR)⌋ ∧
    (resize density w h s).H = ⌊fl (h * s.DPR)⌋ ∧
    (resize density w h s).targetCount
      = min ⌊fl (fl (fl (density : ℚ) * fl ((⌊fl (w * s.DPR)⌋ : ℚ) * ⌊fl (h * s.DPR)⌋))
          / fl (1280 * 720)) + 1 / 2⌋ 8000 ∧
    (resize density w h s).targetCount ≤ 8000 ∧
    (resize 900 1280 720 { s with DPR := 1 }).targetCount = 900 ∧
    (resize 900 2560 1440 { s with DPR := 1 }).targetCount = 3600 ∧
    (resize 900 1280 720 { s with DPR := 2 }).targetCount = 3600 ∧
    ((resize 900 1280 720 { s with DPR := fl 1.2 }).W = 1536 ∧
      (resize 900 1280 720 { s with DPR := fl 1.2 }).H = 864 ∧
      (resize 900 1280 720 { s with DPR := fl 1.2 }).targetCount = 1296) := by
  refine ⟨rfl, rfl, rfl, ?_, ?_, ?_, ?_, ?_⟩
  · simp only [resize]
    exact min_le_right _ _
  · have h := resize_eval 900 1280 720 { s with DPR := 1 } 1280 720
      (fl_eq_nat _ 1280 (by norm_num) (by norm_num))
      (fl_eq_nat _ 720 (by norm_num) (by norm_num)) 900
      (by norm_num) (by norm_num) (by norm_num) (by norm_num)
    simpa using h.2.2
  · have h := resize_eval 900 2560 1440 { s with DPR := 1 } 2560 1440
      (fl_eq_nat _ 2560 (by norm_num) (by norm_num))
      (fl_eq_nat _ 1440 (by norm_num) (by norm_num)) 3600
      (by norm_num) (by norm_num) (by norm_num) (by norm_num)
    simpa using h.2.2
  · have h := resize_eval 900 1280 720 { s with DPR := 2 } 2560 1440
      (fl_eq_nat _ 2560 (by norm_num) (by norm_num))
      (fl_eq_nat _ 1440 (by norm_num) (by norm_num)) 3600
      (by norm_num) (by norm_num) (by norm_num) (by norm_num)
    simpa using h.2.2
  · have hW : fl ((1280 : ℚ) * ({ s with DPR := fl 1.2 } : Sim).DPR) = ((1536 : ℕ) : ℚ) := by
      show fl ((1280 : ℚ) * fl 1.2) = _
      rw [fl_12, fl_1280_mul_12]
      norm_num
    have hH : fl ((720 : ℚ) * ({ s with DPR := fl 1.2 } : Sim).DPR) = ((864 : ℕ) : ℚ) := by
      show fl ((720 : ℚ) * fl 1.2) = _
      rw [fl_12, fl_720_mul_12]
      norm_num
    have h := resize_eval 900 1280 720 { s with DPR := fl 1.2 } 1536 864 hW hH 1296
      (by norm_num) (by norm_num) (by norm_num) (by norm_num)
    exact ⟨by simpa using h.1, by simpa using h.2.1, by simpa using h.2.2⟩

/-! ## Lemmas on `makeSplash`, `Drop.reset` and `Drop.wrap` -/

theorem valid_of_samples {g1 g2 : Rng} (h : g2.samples = g1.samples) (hg : g1.Valid) :
    g2.Valid := by
  intro i
  rw [h]
  exact hg i

theorem makeSplashLoop_samples (m : MathLib) (x y power : ℚ) (k : Nat) (sp : List Splash)
    (g : Rng) : (makeSplashLoop m x y power k sp g).2.samples = g.samples := by
  induction k generalizing sp g with
  | zero => rfl
  | succ k ih =>
    simp only [makeSplashLoop]
    rw [ih]
    rfl

theorem makeSplashLoop_append (m : MathLib) (x y power : ℚ) (k : Nat) (sp : List Splash)
    (g : Rng) :
    (makeSplashLoop m x y power k sp g).1 = sp ++ (makeSplashLoop m x y power k [] g).1 := by
  induction k generalizing sp g with
  | zero => simp [makeSplashLoop]
  | succ k ih =>
    simp only [makeSplashLoop]
    rw [ih (sp ++ _), ih ([] ++ _)]
    simp

theorem makeSplashLoop_length (m : MathLib) (x y power : ℚ) (k : Nat) (g : Rng) :
    (makeSplashLoop m x y power k [] g).1.length = k := by
  induction k generalizing g with
  | zero => simp [makeSplashLoop]
  | succ k ih =>
    simp only [makeSplashLoop]
    rw [makeSplashLoop_append, List.length_append, ih]
    simp
    omega

theorem makeSplashLoop_origin (m : MathLib) (x y power : ℚ) (k : Nat) (g : Rng) :
    ∀ q ∈ (makeSplashLoop m x y power k [] g).1, q.x = x ∧ q.y = y := by
  induction k generalizing g with
  | zero => simp [makeSplashLoop]
  | succ k ih =>
    intro q hq
    simp only [makeSplashLoop] at hq
    rw [makeSplashLoop_append, List.mem_append] at hq
    rcases hq with hq | hq
    · simp only [List.nil_append, List.mem_singleton] at hq
      subst hq
      exact ⟨rfl, rfl⟩
    · exact ih _ q hq

/-- The life of every particle the loop creates is one `rand(0.15, 0.35)` call
on the same sample stream. -/
theorem makeSplashLoop_life (m : MathLib) (x y power : ℚ) (k : Nat) (g : Rng) :
    ∀ q ∈ (makeSplashLoop m x y power k [] g).1,
      ∃ g1 : Rng, g1.samples = g.samples ∧ q.life = (randF (fl 0.15) (fl 0.35) g1).1 := by
  induction k generalizing g with
  | zero => simp [makeSplashLoop]
  | succ k ih =>
    intro q hq
    simp only [makeSplashLoop] at hq
    rw [makeSplashLoop_append, List.mem_append] at hq
    rcases hq with hq | hq
    · simp only [List.nil_append, List.mem_singleton] at hq
      subst hq
      exact ⟨(randF 80 260 (randF (fl (-m.PI * fl 0.9)) (fl (-m.PI * fl 0.1)) g).2).2,
        rfl, rfl⟩
    · obtain ⟨g1, h1, h2⟩ := ih _ q hq
      exact ⟨g1, h1, h2⟩

theorem makeSplash_splashes (m : MathLib) (x y power : ℚ) (s : Sim) :
    (makeSplash m x y power s).splashes = s.splashes ++
      (makeSplashLoop m x y power (splashCount power).toNat [] s.rng).1 := by
  simp only [makeSplash]
  exact makeSplashLoop_append _ _ _ _ _ _ _

theorem makeSplash_samples (m : MathLib) (x y power : ℚ) (s : Sim) :
    (makeSplash m x y power s).rng.samples = s.rng.samples := by
  simp only [makeSplash]
  exact makeSplashLoop_samples _ _ _ _ _ _ _

theorem makeSplash_W (m : MathLib) (x y power : ℚ) (s : Sim) :
    (makeSplash m x y power s).W = s.W := rfl

theorem makeSplash_H (m : MathLib) (x y power : ℚ) (s : Sim) :
    (makeSplash m x y power s).H = s.H := rfl

/-- For `0 ≤ q < 2^31`, `q|0` is the floor of `q`. -/
theorem toInt32_of_small (q : ℚ) (h0 : 0 ≤ q) (h1 : q < 2147483648) : toInt32 q = ⌊q⌋ := by
  have hf0 : 0 ≤ ⌊q⌋ := Int.floor_nonneg.mpr h0
  have hf1 : ⌊q⌋ < 2147483648 := by
    rw [Int.floor_lt]
    exact_mod_cast h1
  simp only [toInt32, jsTrunc, h0, if_true]
  rw [Int.emod_eq_of_lt hf0 (by omega)]
  simp only [not_le.mpr hf1, if_false]

theorem Drop.wrap_y (W : ℚ) (d : Drop) : (Drop.wrap W d).y = d.y := by
  simp only [Drop.wrap]
  split_ifs <;> rfl

theorem Drop.wrap_life (W : ℚ) (d : Drop) : (Drop.wrap W d).life = d.life := by
  simp only [Drop.wrap]
  split_ifs <;> rfl

theorem splashState_W (m : MathLib) (cfg : Config) (v x : ℚ) (s : Sim) :
    (splashState m cfg v x s).W = s.W := by
  unfold splashState
  split_ifs <;> rfl

theorem splashState_H (m : MathLib) (cfg : Config) (v x : ℚ) (s : Sim) :
    (splashState m cfg v x s).H = s.H := by
  unfold splashState
  split_ifs <;> rfl

theorem splashState_samples (m : MathLib) (cfg : Config) (v x : ℚ) (s : Sim) :
    (splashState m cfg v x s).rng.samples = s.rng.samples := by
  unfold splashState
  split_ifs
  · exact makeSplash_samples _ _ _ _ _
  · rfl

/-- `reset` overwrites all four fields, so its result does not depend on the
drop it is called on. -/
theorem Drop.reset_irrelevant (W H : ℚ) (b : Bool) (d1 d2 : Drop) (g : Rng) :
    Drop.reset W H b d1 g = Drop.reset W H b d2 g := rfl

/-- The drop returned by a recycling `Drop.update`. -/
theorem Drop.update_recycled (m : MathLib) (dt : ℚ) (cfg : Config) (d : Drop) (s : Sim)
    (hl : 0 < d.life) (hy : s.H < (Drop.advance m s.DPR dt cfg d).y) :
    (Drop.update m dt cfg d s).1 = Drop.wrap s.W (Drop.new s.W s.H
      (splashState m cfg (d.base * cfg.speed) (Drop.advance m s.DPR dt cfg d).x s).rng).1 := by
  have hy2 : (Drop.advance m s.DPR dt cfg d).y > s.H := hy
  simp only [Drop.update, not_le.mpr hl, if_false, Drop.recycle, hy2, if_true, Drop.new]
  rw [splashState_W, splashState_H]
  rfl

/-- The `fromTop = true` height is below `0` when the surface height is
positive, and also on a surface of height `0` when the sample is not `0`. -/
theorem rand_top_neg (H : ℚ) (g : Rng) (hg : g.Valid) (hH : 0 ≤ H)
    (hpos : 0 < H ∨ ∀ i, 0 < g.samples i) : (rand (-H * 1.0) (-10) g).1 < 0 := by
  obtain ⟨h0, h1⟩ := hg g.pos
  simp only [rand, Rng.next]
  have hm : 0 ≤ H * (1 - g.samples g.pos) := mul_nonneg hH (by linarith)
  rcases hpos with hp | hp
  · have hm2 : 0 < H * (1 - g.samples g.pos) := mul_pos hp (by linarith)
    nlinarith
  · have hr := hp g.pos
    nlinarith

theorem Drop.new_y (W H : ℚ) (g : Rng) :
    (Drop.new W H g).1.y = (rand (-H * 1.0) (-10) (rand (-W * 0.1) (W * 1.1) g).2).1 := rfl

theorem Drop.new_life (W H : ℚ) (g : Rng) : (Drop.new W H g).1.life = 1 := rfl

/-! ## C5: a drop that crosses the bottom edge is recycled in the same call -/

/-- C5 (as stated, refuted): on a surface of height `0`, with `Math.random()`
returning `0`, an active drop that has crossed `y > H` is reset to `y = 0`,
which is not below `0`. -/
theorem update_zero_height_not_above_top :
    (startSim 1280 0 900 (constRng 0)).rng.Valid ∧
    (0 : ℚ) < (Drop.mk 100 (-5) 1000 1).life ∧
    (startSim 1280 0 900 (constRng 0)).H <
      (Drop.advance approxMath (startSim 1280 0 900 (constRng 0)).DPR 0.016
        (mkConfig 1 0 false) (Drop.mk 100 (-5) 1000 1)).y ∧
    ¬ ((Drop.update approxMath 0.016 (mkConfig 1 0 false) (Drop.mk 100 (-5) 1000 1)
        (startSim 1280 0 900 (constRng 0))).1.y < 0) := by
  have hy : (startSim 1280 0 900 (constRng 0)).H <
      (Drop.advance approxMath (startSim 1280 0 900 (constRng 0)).DPR 0.016
        (mkConfig 1 0 false) (Drop.mk 100 (-5) 1000 1)).y := by
    norm_num [startSim, Drop.advance, Drop.velocity, approxMath, mkConfig]
  refine ⟨constRng_valid 0 le_rfl (by norm_num), by norm_num, hy, ?_⟩
  rw [Drop.update_recycled _ _ _ _ _ (by norm_num) hy, Drop.wrap_y, Drop.new_y]
  norm_num [rand, Rng.next, constRng, splashState, mkConfig, startSim]

/-- C5 (amended): on a surface of positive height (or of height `0` when
`Math.random()` never returns exactly `0`), an active drop whose `y` after the
position advance exceeds `H` leaves the same `Drop.update` call with `y < 0` and
`life = 1`, for every `dt`, configuration and random stream in `[0,1)`. -/
theorem update_recycles_above_top (m : MathLib) (dt : ℚ) (cfg : Config) (d : Drop) (s : Sim)
    (hl : 0 < d.life) (hg : s.rng.Valid) (hH : 0 ≤ s.H)
    (hpos : 0 < s.H ∨ ∀ i, 0 < s.rng.samples i)
    (hy : s.H < (Drop.advance m s.DPR dt cfg d).y) :
    (Drop.update m dt cfg d s).1.y < 0 ∧ (Drop.update m dt cfg d s).1.life = 1 := by
  rw [Drop.update_recycled m dt cfg d s hl hy, Drop.wrap_y, Drop.wrap_life, Drop.new_y]
  have hs := splashState_samples m cfg (d.base * cfg.speed) (Drop.advance m s.DPR dt cfg d).x s
  refine ⟨rand_top_neg _ _ (valid_of_samples hs hg) hH ?_, rfl⟩
  rcases hpos with hp | hp
  · exact Or.inl hp
  · refine Or.inr fun i => ?_
    rw [rand_samples, hs]
    exact hp i

/-- C5 witness: a drop at `y = 715` falling at 1000 px/s on a 1280x720 surface. -/
theorem update_recycles_above_top_witness :
    (0 : ℚ) < (Drop.mk 100 715 1000 1).life ∧
    (startSim 1280 720 900 (constRng (1 / 2))).rng.Valid ∧
    0 < (startSim 1280 720 900 (constRng (1 / 2))).H ∧
    (startSim 1280 720 900 (constRng (1 / 2))).H <
      (Drop.advance approxMath (startSim 1280 720 900 (constRng (1 / 2))).DPR 0.016
        (mkConfig 1 0 true) (Drop.mk 100 715 1000 1)).y ∧
    (Drop.update approxMath 0.016 (mkConfig 1 0 true) (Drop.mk 100 715 1000 1)
        (startSim 1280 720 900 (constRng (1 / 2)))).1.y < 0 ∧
    (Drop.update approxMath 0.016 (mkConfig 1 0 true) (Drop.mk 100 715 1000 1)
        (startSim 1280 720 900 (constRng (1 / 2)))).1.life = 1 :=
  ⟨by norm_num, constRng_valid _ (by norm_num) (by norm_num), by norm_num [startSim],
    by norm_num [startSim, Drop.advance, Drop.velocity, approxMath, mkConfig],
    update_recycles_above_top approxMath 0.016 (mkConfig 1 0 true) (Drop.mk 100 715 1000 1)
      (startSim 1280 720 900 (constRng (1 / 2))) (by norm_num)
      (constRng_valid _ (by norm_num) (by norm_num)) (by norm_num [startSim])
      (Or.inl (by norm_num [startSim]))
      (by norm_num [startSim, Drop.advance, Drop.velocity, approxMath, mkConfig])⟩

/-! ## C6: which `reset` range a recycled drop uses -/

/-- C6 (as stated, refuted): on a surface of height 100 a recycled drop is put
at `y = -100` when `Math.random()` returns `0`; this is outside the
`fromTop = false` range `[-0.2*H, -10] = [-20, -10]`. -/
theorem update_recycle_outside_short_range :
    (startSim 1280 100 900 (constRng 0)).H <
      (Drop.advance approxMath (startSim 1280 100 900 (constRng 0)).DPR 0.016
        (mkConfig 1 0 false) (Drop.mk 100 95 1000 1)).y ∧
    (Drop.update approxMath 0.016 (mkConfig 1 0 false) (Drop.mk 100 95 1000 1)
        (startSim 1280 100 900 (constRng 0))).1.y = -100 ∧
    ¬ (-(startSim 1280 100 900 (constRng 0)).H * 0.2 ≤
        (Drop.update approxMath 0.016 (mkConfig 1 0 false) (Drop.mk 100 95 1000 1)
          (startSim 1280 100 900 (constRng 0))).1.y) := by
  have hy : (startSim 1280 100 900 (constRng 0)).H <
      (Drop.advance approxMath (startSim 1280 100 900 (constRng 0)).DPR 0.016
        (mkConfig 1 0 false) (Drop.mk 100 95 1000 1)).y := by
    norm_num [startSim, Drop.advance, Drop.velocity, approxMath, mkConfig]
  have hv : (Drop.update approxMath 0.016 (mkConfig 1 0 false) (Drop.mk 100 95 1000 1)
        (startSim 1280 100 900 (constRng 0))).1.y = -100 := by
    rw [Drop.update_recycled _ _ _ _ _ (by norm_num) hy, Drop.wrap_y, Drop.new_y]
    norm_num [rand, Rng.next, constRng, splashState, mkConfig, startSim]
  refine ⟨hy, hv, ?_⟩
  rw [hv]
  norm_num [startSim]

/-- C6 (amended): when `Drop.update` recycles a drop it calls `reset(true)`, the
same call the constructor makes: the drop returned is a freshly constructed drop
(up to the horizontal wrap), built from the random stream as it stands after the
optional splash; on a surface with `H ≥ 10` its `y` lies between `-H` and
`-10`. -/
theorem update_recycle_as_constructor (m : MathLib) (dt : ℚ) (cfg : Config) (d : Drop)
    (s : Sim) (hl : 0 < d.life) (hg : s.rng.Valid) (hH : 10 ≤ s.H)
    (hy : s.H < (Drop.advance m s.DPR dt cfg d).y) :
    (Drop.update m dt cfg d s).1 = Drop.wrap s.W (Drop.new s.W s.H
      (splashState m cfg (d.base * cfg.speed) (Drop.advance m s.DPR dt cfg d).x s).rng).1 ∧
    Drop.new s.W s.H
        (splashState m cfg (d.base * cfg.speed) (Drop.advance m s.DPR dt cfg d).x s).rng
      = Drop.reset s.W s.H true d
        (splashState m cfg (d.base * cfg.speed) (Drop.advance m s.DPR dt cfg d).x s).rng ∧
    -s.H ≤ (Drop.update m dt cfg d s).1.y ∧ (Drop.update m dt cfg d s).1.y ≤ -10 := by
  have hu := Drop.update_recycled m dt cfg d s hl hy
  refine ⟨hu, rfl, ?_⟩
  rw [hu, Drop.wrap_y, Drop.new_y]
  have hv : (rand (-s.W * 0.1) (s.W * 1.1)
      (splashState m cfg (d.base * cfg.speed) (Drop.advance m s.DPR dt cfg d).x s).rng).2.Valid :=
    valid_of_samples (splashState_samples _ _ _ _ _) hg
  have hb := rand_bounds (-s.H * 1.0) (-10) _ hv (by linarith)
  constructor
  · linarith [hb.1]
  · exact hb.2.1

/-- C6 witness: a drop at `y = 715` falling at 1000 px/s on a 1280x720 surface. -/
theorem update_recycle_as_constructor_witness :
    (0 : ℚ) < (Drop.mk 100 715 1000 1).life ∧
    (startSim 1280 720 900 (constRng (1 / 2))).rng.Valid ∧
    10 ≤ (startSim 1280 720 900 (constRng (1 / 2))).H ∧
    -(startSim 1280 720 900 (constRng (1 / 2))).H ≤
      (Drop.update approxMath 0.016 (mkConfig 1 0 true) (Drop.mk 100 715 1000 1)
        (startSim 1280 720 900 (constRng (1 / 2)))).1.y ∧
    (Drop.update approxMath 0.016 (mkConfig 1 0 true) (Drop.mk 100 715 1000 1)
        (startSim 1280 720 900 (constRng (1 / 2)))).1.y ≤ -10 :=
  ⟨by norm_num, constRng_valid _ (by norm_num) (by norm_num), by norm_num [startSim],
    (update_recycle_as_constructor approxMath 0.016 (mkConfig 1 0 true)
      (Drop.mk 100 715 1000 1) (startSim 1280 720 900 (constRng (1 / 2))) (by norm_num)
      (constRng_valid _ (by norm_num) (by norm_num)) (by norm_num [startSim])
      (by norm_num [startSim, Drop.advance, Drop.velocity, approxMath, mkConfig])).2.2⟩

/-! ## C7, C8: `makeSplash` -/

/-- C7 (as stated, refuted): for `power = 2^32` the count `5 + (power*0.5|0)`
wraps to `5 - 2^31 < 0`, so `makeSplash` appends nothing although
`5 + floor(power*0.5) = 2147483653`. -/
theorem makeSplash_huge_power_appends_nothing :
    (0 : ℚ) ≤ 4294967296 ∧
    splashCount 4294967296 = -2147483643 ∧
    (makeSplash approxMath 10 20 4294967296 (startSim 1280 720 900 (constRng 0))).splashes
      = (startSim 1280 720 900 (constRng 0)).splashes ∧
    5 + ⌊(4294967296 : ℚ) * 0.5⌋ = 2147483653 := by
  have hf : ⌊(4294967296 : ℚ) * 0.5⌋ = 2147483648 := by
    rw [Int.floor_eq_iff]
    constructor <;> norm_num
  have hc : splashCount 4294967296 = -2147483643 := by
    have h0 : (0 : ℚ) ≤ 4294967296 * 0.5 := by norm_num
    simp only [splashCount, toInt32, jsTrunc, h0, if_true, hf]
    decide
  refine ⟨by norm_num, hc, ?_, by rw [hf]; decide⟩
  simp only [makeSplash, hc]
  rfl

/-- C7 (amended): for `0 ≤ power` with `power*0.5 < 2^31`, `makeSplash(x, y, power)`
leaves the existing splashes in place and appends exactly `5 + floor(power*0.5)`
particles after them, each created at `(x, y)`. -/
theorem makeSplash_count (m : MathLib) (x y power : ℚ) (s : Sim)
    (h0 : 0 ≤ power) (h1 : power * 0.5 < 2147483648) :
    ∃ extra : List Splash,
      (makeSplash m x y power s).splashes = s.splashes ++ extra ∧
      (extra.length : Int) = 5 + ⌊power * 0.5⌋ ∧
      ∀ q ∈ extra, q.x = x ∧ q.y = y := by
  refine ⟨(makeSplashLoop m x y power (splashCount power).toNat [] s.rng).1,
    makeSplash_splashes m x y power s, ?_, makeSplashLoop_origin m x y power _ s.rng⟩
  have hq : (0 : ℚ) ≤ power * 0.5 := by positivity
  have hf : 0 ≤ ⌊power * 0.5⌋ := Int.floor_nonneg.mpr hq
  rw [makeSplashLoop_length, splashCount, toInt32_of_small _ hq h1]
  omega

/-- C7 witness: `makeSplash(10, 20, 12)` on an empty list creates `5 + 6 = 11`
particles. -/
theorem makeSplash_count_witness :
    (0 : ℚ) ≤ 12 ∧ (12 : ℚ) * 0.5 < 2147483648 ∧
    ∃ extra : List Splash,
      (makeSplash approxMath 10 20 12 (startSim 1280 720 900 (constRng 0))).splashes
        = (startSim 1280 720 900 (constRng 0)).splashes ++ extra ∧
      (extra.length : Int) = 5 + ⌊(12 : ℚ) * 0.5⌋ ∧
      ∀ q ∈ extra, q.x = 10 ∧ q.y = 20 :=
  ⟨by norm_num, by norm_num,
    makeSplash_count approxMath 10 20 12 (startSim 1280 720 900 (constRng 0))
      (by norm_num) (by norm_num)⟩

/-- C8 (as stated, refuted): when `Math.random()` returns `1 - 2^-53`, every
one of the 11 particles of `makeSplash(10, 20, 12)` gets the life `0.35` itself
(the double written `0.35`), whatever `Math.sin`, `Math.cos` and `Math.PI` are:
`0.35 - 0.15` is `0.19999999999999998`, its product with the sample rounds to
`0.19999999999999996`, and adding `0.15` is a tie that rounds up to `0.35`. -/
theorem makeSplash_life_reaches_upper_end :
    (startSim 1280 720 900 (constRng (1 - 1 / 2 ^ 53))).rng.Valid ∧
    ∀ m : MathLib,
      (makeSplash m 10 20 12
        (startSim 1280 720 900 (constRng (1 - 1 / 2 ^ 53)))).splashes.length = 11 ∧
      ∀ q ∈ (makeSplash m 10 20 12
          (startSim 1280 720 900 (constRng (1 - 1 / 2 ^ 53)))).splashes,
        q.life = fl 0.35 ∧ ¬ (q.life < fl 0.35) := by
  refine ⟨constRng_valid _ (by norm_num) (by norm_num), fun m => ?_⟩
  have hc : splashCount 12 = 11 := by
    have e : (12 : ℚ) * 0.5 = ((6 : Int) : ℚ) := by norm_num
    rw [splashCount, toInt32_of_small _ (by rw [e]; norm_num) (by rw [e]; norm_num), e,
      Int.floor_intCast]
    rfl
  have hsp := makeSplash_splashes m 10 20 12
    (startSim 1280 720 900 (constRng (1 - 1 / 2 ^ 53)))
  have hnil : (startSim 1280 720 900 (constRng (1 - 1 / 2 ^ 53))).splashes = [] := rfl
  rw [hsp, hnil, List.nil_append, makeSplashLoop_length, hc]
  refine ⟨rfl, fun q hq => ?_⟩
  obtain ⟨g1, h1, h2⟩ := makeSplashLoop_life m 10 20 12 _ _ q hq
  have hr : g1.samples g1.pos = 1 - 1 / 2 ^ 53 := by
    rw [h1]
    rfl
  have hl : q.life = fl 0.35 := by rw [h2, randF_015_035_top g1 hr]
  exact ⟨hl, by rw [hl]; exact lt_irrefl _⟩

/-- C8 (amended): for every power and every stream of `Math.random()` samples in
`[0,1)`, each particle appended by `makeSplash` has an initial life `L` with
`0.15 ≤ L ≤ 0.35` (`0.15` and `0.35` being the doubles written in the source);
the upper end is included. -/
theorem makeSplash_life (m : MathLib) (x y power : ℚ) (s : Sim) (hg : s.rng.Valid) :
    ∀ q ∈ (makeSplash m x y power s).splashes.drop s.splashes.length,
      fl 0.15 ≤ q.life ∧ q.life ≤ fl 0.35 := by
  rw [makeSplash_splashes, List.drop_left]
  intro q hq
  obtain ⟨g1, h1, h2⟩ := makeSplashLoop_life m x y power _ _ q hq
  have hb := randF_bounds (fl 0.15) (fl 0.35) g1 (valid_of_samples h1 hg) (fl_idem _)
    (fl_mono (by norm_num))
  rw [fl_span_015_035] at hb
  rw [h2]
  exact hb

/-- C8 witness: the particles of `makeSplash(10, 20, 12)` with every sample `1/2`. -/
theorem makeSplash_life_witness :
    (startSim 1280 720 900 (constRng (1 / 2))).rng.Valid ∧
    ∀ q ∈ (makeSplash approxMath 10 20 12
        (startSim 1280 720 900 (constRng (1 / 2)))).splashes.drop
          (startSim 1280 720 900 (constRng (1 / 2))).splashes.length,
      fl 0.15 ≤ q.life ∧ q.life ≤ fl 0.35 :=
  ⟨constRng_valid _ (by norm_num) (by norm_num),
    makeSplash_life approxMath 10 20 12 (startSim 1280 720 900 (constRng (1 / 2)))
      (constRng_valid _ (by norm_num) (by norm_num))⟩

/-! ## C9: no wind, no horizontal motion -/

/-- C9: with `wind = 0` (and `Math.sin(0) = 0`, `Math.cos(0) = 1`) the velocity
of `Drop.update` is `(0, base * speed)` and the position advance leaves `x`
unchanged: an active drop that stays above the bottom edge leaves `Drop.update`
with `y` advanced by `base * speed * dt * DPR` and `x` only passed through the
horizontal wrap; with `speed = 1` and `base = 1000` the velocity is `(0, 1000)`. -/
theorem update_wind_zero_vertical (m : MathLib) (dt : ℚ) (cfg : Config) (d : Drop) (s : Sim)
    (hsin : m.sin 0 = 0) (hcos : m.cos 0 = 1) (hw : cfg.wind = 0) :
    (Drop.velocity m cfg d).1 = 0 ∧
    (Drop.velocity m cfg d).2 = d.base * cfg.speed ∧
    (Drop.advance m s.DPR dt cfg d).x = d.x ∧
    (Drop.advance m s.DPR dt cfg d).y = d.y + d.base * cfg.speed * dt * s.DPR ∧
    (0 < d.life → ¬ s.H < d.y + d.base * cfg.speed * dt * s.DPR →
      (Drop.update m dt cfg d s).1
        = Drop.wrap s.W { d with y := d.y + d.base * cfg.speed * dt * s.DPR }) ∧
    (cfg.speed = 1 → d.base = 1000 → Drop.velocity m cfg d = (0, 1000)) := by
  have hv : Drop.velocity m cfg d = (0, d.base * cfg.speed) := by
    simp [Drop.velocity, hw, hsin, hcos]
  have ha : Drop.advance m s.DPR dt cfg d
      = { d with y := d.y + d.base * cfg.speed * dt * s.DPR } := by
    simp [Drop.advance, hv]
  refine ⟨by rw [hv], by rw [hv], by rw [ha], by rw [ha], ?_, ?_⟩
  · intro hl hy
    have hy2 : ¬ (d.y + d.base * cfg.speed * dt * s.DPR > s.H) := hy
    simp only [Drop.update, not_le.mpr hl, if_false, ha, Drop.recycle, hy2]
  · intro hs hb
    rw [hv, hs, hb]
    norm_num

/-- C9 witness: `wind = 0`, `speed = 1`, `base = 1000` gives `vx = 0`,
`vy = 1000`. -/
theorem update_wind_zero_vertical_witness :
    approxMath.sin 0 = 0 ∧ approxMath.cos 0 = 1 ∧ (mkConfig 1 0 true).wind = 0 ∧
    Drop.velocity approxMath (mkConfig 1 0 true) (Drop.mk 100 50 1000 1) = (0, 1000) :=
  ⟨by norm_num [approxMath], by norm_num [approxMath], rfl,
    (update_wind_zero_vertical approxMath 0.016 (mkConfig 1 0 true) (Drop.mk 100 50 1000 1)
      (startSim 1280 720 900 (constRng 0))
      (by norm_num [approxMath]) (by norm_num [approxMath]) rfl).2.2.2.2.2 rfl rfl⟩

/-! ## C10: `Drop.reset` -/

/-- C10 (as stated, refuted): both half-open ranges are reached at their upper
end. On a surface of width `0` (allowed by `W ≥ 0`) `reset` puts the drop at
`x = 0 = 1.1 * W`; and with the sample `1 - 2^-53`, `rand(700, 1400)` is `1400`
in the code's double arithmetic (`r*700` rounds to `700 - 2^-43`, and adding
`700` is a tie that rounds up to `1400`). -/
theorem resetF_reaches_upper_ends :
    (constRng (1 - 1 / 2 ^ 53)).ValidF ∧ (0 : ℚ) ≤ 0 ∧
    (Drop.resetF 0 720 true (Drop.mk 0 0 0 0) (constRng (1 - 1 / 2 ^ 53))).1.x = 0 ∧
    ¬ ((Drop.resetF 0 720 true (Drop.mk 0 0 0 0) (constRng (1 - 1 / 2 ^ 53))).1.x < 1.1 * 0) ∧
    (Drop.resetF 0 720 true (Drop.mk 0 0 0 0) (constRng (1 - 1 / 2 ^ 53))).1.base = 1400 ∧
    ¬ ((Drop.resetF 0 720 true (Drop.mk 0 0 0 0) (constRng (1 - 1 / 2 ^ 53))).1.base
        < 1400) := by
  have hx : (Drop.resetF 0 720 true (Drop.mk 0 0 0 0) (constRng (1 - 1 / 2 ^ 53))).1.x
      = 0 := by
    simp [Drop.resetF, randF, Rng.next, fl_zero]
  have hb : (Drop.resetF 0 720 true (Drop.mk 0 0 0 0) (constRng (1 - 1 / 2 ^ 53))).1.base
      = 1400 := by
    show (randF 700 1400 _).1 = 1400
    exact randF_700_1400_top _ rfl
  refine ⟨constRng_validF _ fl_one_sub_ulp (by norm_num) (by norm_num), le_rfl, hx, ?_, hb, ?_⟩
  · rw [hx]
    norm_num
  · rw [hb]
    exact lt_irrefl _

/-- C10 (amended): for double samples in `[0,1)` and `W ≥ 0`, `Drop.reset` (with
either value of `fromTop`), computed in the code's double arithmetic, leaves
`life = 1`, `x` in the closed interval from `-W*0.1` to `W*1.1` and `base` in the
closed interval `[700, 1400]`. -/
theorem resetF_ranges (W H : ℚ) (fromTop : Bool) (d : Drop) (g : Rng) (hg : g.ValidF)
    (hW : 0 ≤ W) :
    (Drop.resetF W H fromTop d g).1.life = 1 ∧
    fl (-W * fl 0.1) ≤ (Drop.resetF W H fromTop d g).1.x ∧
    (Drop.resetF W H fromTop d g).1.x ≤ fl (W * fl 1.1) ∧
    700 ≤ (Drop.resetF W H fromTop d g).1.base ∧
    (Drop.resetF W H fromTop d g).1.base ≤ 1400 := by
  have h01 : 0 ≤ fl 0.1 := fl_nonneg (by norm_num)
  have h11 : 0 ≤ fl 1.1 := fl_nonneg (by norm_num)
  have ha : fl (-W * fl 0.1) ≤ 0 := by
    have h := fl_mono (by nlinarith : -W * fl 0.1 ≤ 0)
    rwa [fl_zero] at h
  have hb : 0 ≤ fl (W * fl 1.1) := fl_nonneg (mul_nonneg hW h11)
  have hx := randF_range (fl (-W * fl 0.1)) (fl (W * fl 1.1)) g hg (fl_idem _) (fl_idem _)
    (le_trans ha hb)
  have hbase := randF_range 700 1400
    (if fromTop then randF (fl (-H * 1.0)) (-10) (randF (fl (-W * fl 0.1)) (fl (W * fl 1.1)) g).2
      else randF (fl (-H * fl 0.2)) (-10) (randF (fl (-W * fl 0.1)) (fl (W * fl 1.1)) g).2).2
    (by cases fromTop <;> exact hg)
    (fl_eq_nat _ 700 (by norm_num) (by norm_num))
    (fl_eq_nat _ 1400 (by norm_num) (by norm_num)) (by norm_num)
  exact ⟨rfl, hx.1, hx.2, hbase.1, hbase.2⟩

/-- C10 witness: `reset` on a 1280x720 surface with every sample `1/2`. -/
theorem resetF_ranges_witness :
    (constRng (1 / 2)).ValidF ∧ (0 : ℚ) ≤ 1280 ∧
    (Drop.resetF 1280 720 false (Drop.mk 0 0 0 0) (constRng (1 / 2))).1.life = 1 ∧
    fl (-1280 * fl 0.1)
      ≤ (Drop.resetF 1280 720 false (Drop.mk 0 0 0 0) (constRng (1 / 2))).1.x ∧
    (Drop.resetF 1280 720 false (Drop.mk 0 0 0 0) (constRng (1 / 2))).1.x
      ≤ fl (1280 * fl 1.1) ∧
    700 ≤ (Drop.resetF 1280 720 false (Drop.mk 0 0 0 0) (constRng (1 / 2))).1.base ∧
    (Drop.resetF 1280 720 false (Drop.mk 0 0 0 0) (constRng (1 / 2))).1.base ≤ 1400 :=
  have hv : (constRng (1 / 2)).ValidF :=
    constRng_validF _ (by simpa using fl_zpow (-1)) (by norm_num) (by norm_num)
  ⟨hv, by norm_num,
    resetF_ranges 1280 720 false (Drop.mk 0 0 0 0) (constRng (1 / 2)) hv (by norm_num)⟩

/-! ## C11: the splash of a recycled drop -/

theorem Drop.update_recycled_splashes (m : MathLib) (dt : ℚ) (cfg : Config) (d : Drop)
    (s : Sim) (hl : 0 < d.life) (hy : s.H < (Drop.advance m s.DPR dt cfg d).y)
    (hs : cfg.splash = true) :
    (Drop.update m dt cfg d s).2.splashes = s.splashes ++
      (makeSplashLoop m (Drop.advance m s.DPR dt cfg d).x (s.H - 2)
        (d.base * cfg.speed * 0.012)
        (splashCount (d.base * cfg.speed * 0.012)).toNat [] s.rng).1 := by
  have hy2 : (Drop.advance m s.DPR dt cfg d).y > s.H := hy
  simp only [Drop.update, not_le.mpr hl, if_false, Drop.recycle, hy2, if_true, splashState,
    hs]
  exact makeSplash_splashes _ _ _ _ _

/-- C11 (as stated, refuted): a drop that has advanced to `y = 731` on a surface
of height 720 emits its 11 splash particles at `y = 718 = H - 2`, not at the
`y` the drop had after its position advance. -/
theorem update_splash_not_at_drop_y :
    (Drop.advance approxMath (startSim 1280 720 900 (constRng (1 / 2))).DPR 0.016
        (mkConfig 1 0 true) (Drop.mk 100 715 1000 1)).y = 731 ∧
    (Drop.update approxMath 0.016 (mkConfig 1 0 true) (Drop.mk 100 715 1000 1)
        (startSim 1280 720 900 (constRng (1 / 2)))).2.splashes.length = 11 ∧
    ∀ q ∈ (Drop.update approxMath 0.016 (mkConfig 1 0 true) (Drop.mk 100 715 1000 1)
        (startSim 1280 720 900 (constRng (1 / 2)))).2.splashes,
      q.y = 718 ∧ q.y ≠ (Drop.advance approxMath
        (startSim 1280 720 900 (constRng (1 / 2))).DPR 0.016
        (mkConfig 1 0 true) (Drop.mk 100 715 1000 1)).y := by
  have ha : (Drop.advance approxMath (startSim 1280 720 900 (constRng (1 / 2))).DPR 0.016
        (mkConfig 1 0 true) (Drop.mk 100 715 1000 1)).y = 731 := by
    norm_num [startSim, Drop.advance, Drop.velocity, approxMath, mkConfig]
  have hy : (startSim 1280 720 900 (constRng (1 / 2))).H <
      (Drop.advance approxMath (startSim 1280 720 900 (constRng (1 / 2))).DPR 0.016
        (mkConfig 1 0 true) (Drop.mk 100 715 1000 1)).y := by
    rw [ha]
    norm_num [startSim]
  have hc : splashCount ((Drop.mk 100 715 1000 1).base * (mkConfig 1 0 true).speed * 0.012)
      = 11 := by
    have e : (Drop.mk 100 715 1000 1).base * (mkConfig 1 0 true).speed * 0.012 * 0.5
        = ((6 : Int) : ℚ) := by norm_num [mkConfig]
    rw [splashCount, toInt32_of_small _ (by rw [e]; norm_num) (by rw [e]; norm_num), e,
      Int.floor_intCast]
    rfl
  have hsp := Drop.update_recycled_splashes approxMath 0.016 (mkConfig 1 0 true)
    (Drop.mk 100 715 1000 1) (startSim 1280 720 900 (constRng (1 / 2))) (by norm_num) hy rfl
  refine ⟨ha, ?_, ?_⟩
  · rw [hsp, List.length_append, makeSplashLoop_length, hc]
    rfl
  · intro q hq
    rw [hsp] at hq
    have hq2 : q ∈ (makeSplashLoop approxMath
        (Drop.advance approxMath (startSim 1280 720 900 (constRng (1 / 2))).DPR 0.016
          (mkConfig 1 0 true) (Drop.mk 100 715 1000 1)).x
        ((startSim 1280 720 900 (constRng (1 / 2))).H - 2)
        ((Drop.mk 100 715 1000 1).base * (mkConfig 1 0 true).speed * 0.012)
        (splashCount ((Drop.mk 100 715 1000 1).base * (mkConfig 1 0 true).speed * 0.012)).toNat
        [] (startSim 1280 720 900 (constRng (1 / 2))).rng).1 := by
      simpa [startSim] using hq
    have ho := (makeSplashLoop_origin _ _ _ _ _ _ q hq2).2
    have h718 : q.y = 718 := by
      rw [ho]
      norm_num [startSim]
    refine ⟨h718, ?_⟩
    rw [h718, ha]
    norm_num

/-- C11 (amended): when an active drop crosses the bottom edge with splashes
enabled, the splash is emitted before the drop is reset: every particle appended
in that `Drop.update` call starts at the `x` the drop had after its position
advance and at `y = H - 2`, and the drop is then rebuilt from the random stream
left by `makeSplash`. -/
theorem update_splash_origin (m : MathLib) (dt : ℚ) (cfg : Config) (d : Drop) (s : Sim)
    (hl : 0 < d.life) (hy : s.H < (Drop.advance m s.DPR dt cfg d).y)
    (hs : cfg.splash = true) :
    ∃ extra : List Splash,
      (Drop.update m dt cfg d s).2.splashes = s.splashes ++ extra ∧
      extra.length = (splashCount (d.base * cfg.speed * 0.012)).toNat ∧
      (∀ q ∈ extra, q.x = (Drop.advance m s.DPR dt cfg d).x ∧ q.y = s.H - 2) ∧
      (Drop.update m dt cfg d s).1 = Drop.wrap s.W (Drop.new s.W s.H
        (makeSplash m (Drop.advance m s.DPR dt cfg d).x (s.H - 2)
          (d.base * cfg.speed * 0.012) s).rng).1 := by
  refine ⟨_, Drop.update_recycled_splashes m dt cfg d s hl hy hs,
    makeSplashLoop_length _ _ _ _ _ _, makeSplashLoop_origin _ _ _ _ _ _, ?_⟩
  rw [Drop.update_recycled m dt cfg d s hl hy]
  simp only [splashState, hs, if_true]

/-- C11 witness: a drop at `y = 715` falling at 1000 px/s on a 1280x720 surface
with splashes enabled. -/
theorem update_splash_origin_witness :
    (0 : ℚ) < (Drop.mk 100 715 1000 1).life ∧
    (startSim 1280 720 900 (constRng (1 / 2))).H <
      (Drop.advance approxMath (startSim 1280 720 900 (constRng (1 / 2))).DPR 0.016
        (mkConfig 1 0 true) (Drop.mk 100 715 1000 1)).y ∧
    (mkConfig 1 0 true).splash = true ∧
    ∃ extra : List Splash,
      (Drop.update approxMath 0.016 (mkConfig 1 0 true) (Drop.mk 100 715 1000 1)
        (startSim 1280 720 900 (constRng (1 / 2)))).2.splashes
        = (startSim 1280 720 900 (constRng (1 / 2))).splashes ++ extra ∧
      ∀ q ∈ extra, q.x = (Drop.advance approxMath
          (startSim 1280 720 900 (constRng (1 / 2))).DPR 0.016
          (mkConfig 1 0 true) (Drop.mk 100 715 1000 1)).x ∧
        q.y = (startSim 1280 720 900 (constRng (1 / 2))).H - 2 :=
  have hy : (startSim 1280 720 900 (constRng (1 / 2))).H <
      (Drop.advance approxMath (startSim 1280 720 900 (constRng (1 / 2))).DPR 0.016
        (mkConfig 1 0 true) (Drop.mk 100 715 1000 1)).y := by
    norm_num [startSim, Drop.advance, Drop.velocity, approxMath, mkConfig]
  have h := update_splash_origin approxMath 0.016 (mkConfig 1 0 true)
    (Drop.mk 100 715 1000 1) (startSim 1280 720 900 (constRng (1 / 2))) (by norm_num) hy rfl
  ⟨by norm_num, hy, rfl, h.choose, h.choose_spec.1, h.choose_spec.2.2.1⟩

/-! ## C12: a paused tick -/

/-- C12: while paused, one call of `loop` leaves the drop pool, the splash list
and the lightning timer unchanged (no pool resize, no update, no `Math.random()`
call, no flash); it only records the timestamp and schedules the next tick. -/
theorem loop_paused (m : MathLib) (cfg : Config) (now : ℚ) (s : Sim) (hp : s.paused = true) :
    (loop m cfg now s).drops = s.drops ∧
    (loop m cfg now s).splashes = s.splashes ∧
    (loop m cfg now s).lightningTimer = s.lightningTimer ∧
    (loop m cfg now s).rng = s.rng ∧
    (loop m cfg now s).flashes = s.flashes ∧
    (loop m cfg now s).frames = s.frames + 1 ∧
    loop m cfg now s = { s with last := now, frames := s.frames + 1 } := by
  have h : loop m cfg now s = { s with last := now, frames := s.frames + 1 } := by
    simp [loop, hp]
  rw [h]
  exact ⟨rfl, rfl, rfl, rfl, rfl, rfl, rfl⟩

/-- C12 witness: a paused state with two drops and one splash. -/
theorem loop_paused_witness :
    (loop approxMath (mkConfig 1 0 true) 16
      { startSim 1280 720 2 (constRng 0) with
        paused := true, drops := [⟨1, 2, 700, 1⟩, ⟨3, 4, 800, 1⟩],
        splashes := [⟨1, 2, 3, 4, 1 / 5⟩] }).frames = 1 :=
  (loop_paused approxMath (mkConfig 1 0 true) 16
      { startSim 1280 720 2 (constRng 0) with
        paused := true, drops := [⟨1, 2, 700, 1⟩, ⟨3, 4, 800, 1⟩],
        splashes := [⟨1, 2, 3, 4, 1 / 5⟩] } rfl).2.2.2.2.2.1

/-! ## C13: the reset command -/

theorem Drop.new_samples (W H : ℚ) (g : Rng) : (Drop.new W H g).2.samples = g.samples := rfl

theorem pushDrops_fresh (W H : ℚ) (k : Nat) (g : Rng) :
    ∀ d ∈ (pushDrops W H k [] g).1,
      ∃ g1 : Rng, g1.samples = g.samples ∧ d = (Drop.new W H g1).1 := by
  induction k generalizing g with
  | zero => simp [pushDrops]
  | succ k ih =>
    intro d hd
    simp only [pushDrops] at hd
    rw [pushDrops_append, List.mem_append] at hd
    rcases hd with hd | hd
    · simp only [List.nil_append, List.mem_singleton] at hd
      exact ⟨g, rfl, hd⟩
    · obtain ⟨g1, h1, h2⟩ := ih _ d hd
      exact ⟨g1, h1.trans (Drop.new_samples W H g), h2⟩

theorem keydown_reset (e : KeyEvent) (s : Sim) (hc : e.code ≠ "Space")
    (hk : e.key = "r" ∨ e.key = "R") :
    keydown e s = ensureDrops { s with drops := [], splashes := [] } := by
  have hl : ¬ (e.key = "l" ∨ e.key = "L") := by
    rcases hk with h | h <;> rw [h] <;> decide
  simp only [keydown, hc, hl, hk, if_false, if_true]

theorem ensureDrops_from_empty (s : Sim) (hd : s.drops = []) (h : 0 ≤ s.targetCount) :
    (ensureDrops s).drops = (pushDrops s.W s.H s.targetCount.toNat [] s.rng).1 := by
  have hn : ¬ s.targetCount - (((([] : List Drop)).length : Nat) : Int) < 0 := by
    simp only [List.length_nil]
    omega
  have hk : (s.targetCount - (((([] : List Drop)).length : Nat) : Int)).toNat
      = s.targetCount.toNat := by
    simp
  simp only [ensureDrops, hd, hn, if_false, hk]

/-- C13: after the reset command (a `keydown` with key `r` or `R` that is not
the space bar) and for `targetCount ≥ 0`, the pool has exactly `targetCount`
drops, each of them built by `new Drop()` during the command, and the splash
list is empty. -/
theorem keydown_reset_refills (e : KeyEvent) (s : Sim) (hc : e.code ≠ "Space")
    (hk : e.key = "r" ∨ e.key = "R") (h : 0 ≤ s.targetCount) :
    ((keydown e s).drops.length : Int) = s.targetCount ∧
    (keydown e s).drops = (pushDrops s.W s.H s.targetCount.toNat [] s.rng).1 ∧
    (∀ d ∈ (keydown e s).drops,
      ∃ g : Rng, g.samples = s.rng.samples ∧ d = (Drop.new s.W s.H g).1) ∧
    (keydown e s).splashes = [] := by
  have hd : (keydown e s).drops = (pushDrops s.W s.H s.targetCount.toNat [] s.rng).1 := by
    rw [keydown_reset e s hc hk]
    exact ensureDrops_from_empty { s with drops := [], splashes := [] } rfl h
  refine ⟨?_, hd, ?_, ?_⟩
  · rw [hd, pushDrops_length]
    simp only [List.length_nil]
    omega
  · rw [hd]
    exact pushDrops_fresh _ _ _ _
  · rw [keydown_reset e s hc hk]
    rfl

/-- C13 witness: pressing `r` with three stale drops, one splash and
`targetCount = 2`. -/
theorem keydown_reset_refills_witness :
    ((keydown ⟨"KeyR", "r"⟩
      { startSim 1280 720 2 (constRng 0) with
        drops := [⟨1, 2, 700, 1⟩, ⟨3, 4, 800, 1⟩, ⟨5, 6, 900, 1⟩],
        splashes := [⟨1, 2, 3, 4, 1 / 5⟩] }).drops.length : Int) = 2 ∧
    (keydown ⟨"KeyR", "r"⟩
      { startSim 1280 720 2 (constRng 0) with
        drops := [⟨1, 2, 700, 1⟩, ⟨3, 4, 800, 1⟩, ⟨5, 6, 900, 1⟩],
        splashes := [⟨1, 2, 3, 4, 1 / 5⟩] }).splashes = [] :=
  have h := keydown_reset_refills ⟨"KeyR", "r"⟩
      { startSim 1280 720 2 (constRng 0) with
        drops := [⟨1, 2, 700, 1⟩, ⟨3, 4, 800, 1⟩, ⟨5, 6, 900, 1⟩],
        splashes := [⟨1, 2, 3, 4, 1 / 5⟩] } (by decide) (Or.inl rfl) (by simp [startSim])
  ⟨h.1, h.2.2.2⟩

/-! ## C14: `Splash.update` -/

/-- C14: for a live splash, `Splash.update` adds `1800*dt` to `vy`, advances the
position by the updated velocity times `dt*DPR`, and ends with `life = 0` exactly
when `life - dt ≤ 0` or the new `y` exceeds `H`; otherwise the life is the old
life minus `dt`. -/
theorem splash_update_live (DPR H dt : ℚ) (p : Splash) (hl : 0 < p.life) :
    ((Splash.update DPR H dt p).life = 0 ↔
      (p.life - dt ≤ 0 ∨ p.y + (p.vy + 1800 * dt) * dt * DPR > H)) ∧
    (¬ (p.life - dt ≤ 0 ∨ p.y + (p.vy + 1800 * dt) * dt * DPR > H) →
      (Splash.update DPR H dt p).life = p.life - dt) ∧
    (Splash.update DPR H dt p).vx = p.vx ∧
    (Splash.update DPR H dt p).vy = p.vy + 1800 * dt ∧
    (Splash.update DPR H dt p).x = p.x + (Splash.update DPR H dt p).vx * dt * DPR ∧
    (Splash.update DPR H dt p).y = p.y + (Splash.update DPR H dt p).vy * dt * DPR := by
  by_cases hc : p.y + (p.vy + 1800 * dt) * dt * DPR > H ∨ p.life - dt ≤ 0
  · have hu : Splash.update DPR H dt p
        = { p with vy := p.vy + 1800 * dt, x := p.x + p.vx * dt * DPR,
                   y := p.y + (p.vy + 1800 * dt) * dt * DPR, life := 0 } := by
      simp only [Splash.update, not_le.mpr hl, if_false, hc, if_true]
    rw [hu]
    refine ⟨⟨fun _ => hc.symm, fun _ => rfl⟩, fun hn => absurd hc.symm hn, rfl, rfl, rfl, rfl⟩
  · have hu : Splash.update DPR H dt p
        = { p with vy := p.vy + 1800 * dt, x := p.x + p.vx * dt * DPR,
                   y := p.y + (p.vy + 1800 * dt) * dt * DPR, life := p.life - dt } := by
      simp only [Splash.update, not_le.mpr hl, if_false, hc]
    rw [hu]
    have hpos : 0 < p.life - dt := by
      by_contra hneg
      exact hc (Or.inr (not_lt.mp hneg))
    refine ⟨⟨fun h0 => ?_, fun h => absurd h.symm hc⟩, fun _ => rfl, rfl, rfl, rfl, rfl⟩
    have h0b : p.life - dt = 0 := h0
    linarith

/-- C14 witness: a splash with `0.2` s of life left, one `0.016` s step. -/
theorem splash_update_live_witness :
    (0 : ℚ) < (Splash.mk 10 700 30 (-100) 0.2).life ∧
    (Splash.update 1 720 0.016 (Splash.mk 10 700 30 (-100) 0.2)).vy = -100 + 1800 * 0.016 :=
  ⟨by norm_num, (splash_update_live 1 720 0.016 (Splash.mk 10 700 30 (-100) 0.2)
    (by norm_num)).2.2.2.1⟩

/-! ## State touched by one tick -/

theorem pushDrops_samples (W H : ℚ) (k : Nat) (ds : List Drop) (g : Rng) :
    (pushDrops W H k ds g).2.samples = g.samples := by
  induction k generalizing ds g with
  | zero => rfl
  | succ k ih =>
    simp only [pushDrops]
    rw [ih]
    rfl

theorem ensureDrops_samples (s : Sim) : (ensureDrops s).rng.samples = s.rng.samples := by
  simp only [ensureDrops]
  exact pushDrops_samples _ _ _ _ _

/-- `Drop.update` changes no global besides `splashes` and the random stream. -/
theorem Drop.update_state (m : MathLib) (dt : ℚ) (cfg : Config) (d : Drop) (s : Sim) :
    (Drop.update m dt cfg d s).2
      = { s with splashes := (Drop.update m dt cfg d s).2.splashes,
                 rng := (Drop.update m dt cfg d s).2.rng } ∧
    (Drop.update m dt cfg d s).2.rng.samples = s.rng.samples := by
  unfold Drop.update Drop.recycle splashState
  split_ifs
  all_goals first
    | exact ⟨rfl, rfl⟩
    | exact ⟨rfl, makeSplash_samples _ _ _ _ _⟩

/-- The drop loop of a tick changes no global besides `splashes` and the random
stream. -/
theorem updateDrops_state (m : MathLib) (dt : ℚ) (cfg : Config) (ds : List Drop) (s : Sim) :
    (updateDrops m dt cfg ds s).2
      = { s with splashes := (updateDrops m dt cfg ds s).2.splashes,
                 rng := (updateDrops m dt cfg ds s).2.rng } ∧
    (updateDrops m dt cfg ds s).2.rng.samples = s.rng.samples := by
  induction ds generalizing s with
  | nil => exact ⟨rfl, rfl⟩
  | cons d ds ih =>
    obtain ⟨h1, hg1⟩ := Drop.update_state m dt cfg d s
    obtain ⟨h2, hg2⟩ := ih (Drop.update m dt cfg d s).2
    simp only [updateDrops]
    refine ⟨?_, hg2.trans hg1⟩
    rw [h2, h1]

theorem lightningStep_splashes (dt : ℚ) (cfg : Config) (s : Sim) :
    (lightningStep dt cfg s).splashes = s.splashes := by
  simp only [lightningStep]
  split_ifs <;> rfl

theorem lightningStep_drops (dt : ℚ) (cfg : Config) (s : Sim) :
    (lightningStep dt cfg s).drops = s.drops := by
  simp only [lightningStep]
  split_ifs <;> rfl

/-- The state handed to the lightning block by an unpaused tick. -/
theorem loop_unpaused (m : MathLib) (cfg : Config) (now : ℚ) (s : Sim)
    (hp : s.paused = false) :
    ∃ s4 : Sim,
      loop m cfg now s
        = { lightningStep (frameDt now s.last) cfg s4 with
            frames := (lightningStep (frameDt now s.last) cfg s4).frames + 1 } ∧
      s4.drops = (updateDrops m (frameDt now s.last) cfg
        (ensureDrops { s with last := now }).drops (ensureDrops { s with last := now })).1 ∧
      s4.splashes = splashPass s.DPR s.H (frameDt now s.last)
        (updateDrops m (frameDt now s.last) cfg (ensureDrops { s with last := now }).drops
          (ensureDrops { s with last := now })).2.splashes.length
        (updateDrops m (frameDt now s.last) cfg (ensureDrops { s with last := now }).drops
          (ensureDrops { s with last := now })).2.splashes ∧
      s4.lightningTimer = s.lightningTimer ∧ s4.flashes = s.flashes ∧
      s4.rng.samples = s.rng.samples := by
  obtain ⟨h, hg⟩ := updateDrops_state m (frameDt now s.last) cfg
    (ensureDrops { s with last := now }).drops (ensureDrops { s with last := now })
  refine ⟨{ (updateDrops m (frameDt now s.last) cfg (ensureDrops { s with last := now }).drops
        (ensureDrops { s with last := now })).2 with
      drops := (updateDrops m (frameDt now s.last) cfg (ensureDrops { s with last := now }).drops
        (ensureDrops { s with last := now })).1,
      splashes := splashPass
        (updateDrops m (frameDt now s.last) cfg (ensureDrops { s with last := now }).drops
          (ensureDrops { s with last := now })).2.DPR
        (updateDrops m (frameDt now s.last) cfg (ensureDrops { s with last := now }).drops
          (ensureDrops { s with last := now })).2.H (frameDt now s.last)
        (updateDrops m (frameDt now s.last) cfg (ensureDrops { s with last := now }).drops
          (ensureDrops { s with last := now })).2.splashes.length
        (updateDrops m (frameDt now s.last) cfg (ensureDrops { s with last := now }).drops
          (ensureDrops { s with last := now })).2.splashes }, ?_, rfl, ?_, ?_, ?_, ?_⟩
  · simp only [loop, hp, Bool.not_false, if_true]
  · have hD := congrArg Sim.DPR h
    have hH := congrArg Sim.H h
    simp only at hD hH
    show splashPass _ _ _ _ _ = _
    rw [hD, hH]
    rfl
  · exact (congrArg Sim.lightningTimer h).trans rfl
  · exact (congrArg Sim.flashes h).trans rfl
  · exact hg.trans (ensureDrops_samples _)

/-! ## C15: the backward splash pass -/

theorem list_getElem?_mid {α : Type} (pre suf : List α) (p : α) :
    (pre ++ p :: suf)[pre.length]? = some p := by
  rw [List.getElem?_append_right (Nat.le_refl _)]
  simp

theorem list_set_mid {α : Type} (pre suf : List α) (p q : α) :
    (pre ++ p :: suf).set pre.length q = pre ++ q :: suf := by
  simp

theorem list_eraseIdx_mid {α : Type} (pre suf : List α) (p : α) :
    (pre ++ p :: suf).eraseIdx pre.length = pre ++ suf := by
  induction pre with
  | nil => rfl
  | cons a pre ih => simp [List.eraseIdx, ih]

/-- With the indices below `pre.length` still to visit, the pass replaces `pre`
by its updated survivors and leaves the part already visited alone. -/
theorem splashPass_append (DPR H dt : ℚ) (pre suf : List Splash) :
    splashPass DPR H dt pre.length (pre ++ suf)
      = (pre.map (Splash.update DPR H dt)).filter (fun q => decide (0 < q.life)) ++ suf := by
  induction pre using List.reverseRecOn generalizing suf with
  | nil => simp [splashPass]
  | append_singleton pre p ih =>
    rw [List.length_append, List.length_singleton, List.append_assoc, List.singleton_append]
    simp only [splashPass, list_getElem?_mid, list_set_mid]
    by_cases hq : (Splash.update DPR H dt p).life ≤ 0
    · simp only [hq, if_true, list_eraseIdx_mid]
      rw [ih]
      simp [List.filter_append, not_lt.mpr hq]
    · simp only [hq, if_false]
      rw [ih]
      simp [List.filter_append, not_le.mp hq]

/-- C15: the backward update-and-splice pass turns the splash list `l` into the
list of the updated particles whose life is still positive, in their original
order: every particle is updated exactly once, no dead entry remains and no live
entry is lost; an unpaused `loop` tick leaves exactly that list, computed from
the splashes present after the drop loop. -/
theorem splashPass_compacts (m : MathLib) (cfg : Config) (now DPR H dt : ℚ) (s : Sim)
    (l : List Splash) :
    splashPass DPR H dt l.length l
      = (l.map (Splash.update DPR H dt)).filter (fun q => decide (0 < q.life)) ∧
    (s.paused = false →
      (loop m cfg now s).splashes
        = ((updateDrops m (frameDt now s.last) cfg (ensureDrops { s with last := now }).drops
            (ensureDrops { s with last := now })).2.splashes.map
              (Splash.update s.DPR s.H (frameDt now s.last))).filter
            (fun q => decide (0 < q.life))) := by
  have key : ∀ (D K t : ℚ) (k : List Splash), splashPass D K t k.length k
      = (k.map (Splash.update D K t)).filter (fun q => decide (0 < q.life)) := by
    intro D K t k
    have h := splashPass_append D K t k []
    simpa using h
  refine ⟨key DPR H dt l, fun hp => ?_⟩
  obtain ⟨s4, h1, -, h3, -, -, -⟩ := loop_unpaused m cfg now s hp
  rw [h1]
  show (lightningStep _ _ s4).splashes = _
  rw [lightningStep_splashes, h3, key]

/-- C15 witness: three splashes, the middle one dies in this step; the first and
the last survive, updated, in their original order. -/
theorem splashPass_compacts_witness :
    splashPass 1 720 0.016 3
        [⟨0, 0, 0, 0, 0.2⟩, ⟨5, 5, 0, 0, 0.01⟩, ⟨9, 9, 0, 0, 0.3⟩]
      = ([⟨0, 0, 0, 0, 0.2⟩, ⟨5, 5, 0, 0, 0.01⟩, ⟨9, 9, 0, 0, 0.3⟩].map
          (Splash.update 1 720 0.016)).filter (fun q => decide (0 < q.life)) :=
  (splashPass_compacts approxMath (mkConfig 1 0 true) 16 1 720 0.016
    (startSim 1280 720 0 (constRng 0))
    [⟨0, 0, 0, 0, 0.2⟩, ⟨5, 5, 0, 0, 0.01⟩, ⟨9, 9, 0, 0, 0.3⟩]).1

/-! ## C16: automatic lightning -/

/-- The lightning block: at most one flash; a flash needs lightning enabled and
a run-out timer and resets the timer to a value in `[5, 18)`; otherwise the
timer is left alone (lightning off) or decreased by `dt` (lightning on). -/
theorem lightningStep_spec (dt : ℚ) (cfg : Config) (s : Sim) (hg : s.rng.Valid) :
    ((lightningStep dt cfg s).flashes = s.flashes ∨
      (lightningStep dt cfg s).flashes = s.flashes + 1) ∧
    ((lightningStep dt cfg s).flashes ≠ s.flashes →
      cfg.lightning = true ∧ s.lightningTimer - dt ≤ 0 ∧
      5 ≤ (lightningStep dt cfg s).lightningTimer ∧
      (lightningStep dt cfg s).lightningTimer < 18) ∧
    (cfg.lightning = false →
      (lightningStep dt cfg s).lightningTimer = s.lightningTimer ∧
      (lightningStep dt cfg s).flashes = s.flashes) ∧
    (cfg.lightning = true → (lightningStep dt cfg s).flashes = s.flashes →
      (lightningStep dt cfg s).lightningTimer = s.lightningTimer - dt) := by
  by_cases hL : cfg.lightning = true
  · by_cases ht : s.lightningTimer - dt ≤ 0
    · by_cases hr : (s.rng.next).1 < 0.0015
      · have hu : lightningStep dt cfg s
            = { s with lightningTimer := (rand 5 18 (s.rng.next).2).1,
                       rng := (rand 5 18 (s.rng.next).2).2,
                       flashes := s.flashes + 1 } := by
          simp only [lightningStep, hL, if_true, ht, hr, triggerLightning]
        have hb := rand_bounds 5 18 (s.rng.next).2 hg (by norm_num)
        rw [hu]
        refine ⟨Or.inr rfl, fun _ => ⟨hL, ht, hb.1, hb.2.2 (by norm_num)⟩, fun hf => ?_,
          fun _ hf => ?_⟩
        · rw [hL] at hf
          exact absurd hf (by decide)
        · exact absurd hf (Nat.succ_ne_self _)
      · have hu : lightningStep dt cfg s
            = { s with lightningTimer := s.lightningTimer - dt, rng := (s.rng.next).2 } := by
          simp only [lightningStep, hL, if_true, ht, hr, if_false]
        rw [hu]
        refine ⟨Or.inl rfl, fun hne => absurd rfl hne, fun hf => ?_, fun _ _ => rfl⟩
        rw [hL] at hf
        exact absurd hf (by decide)
    · have hu : lightningStep dt cfg s
          = { s with lightningTimer := s.lightningTimer - dt } := by
        simp only [lightningStep, hL, if_true, ht, if_false]
      rw [hu]
      refine ⟨Or.inl rfl, fun hne => absurd rfl hne, fun hf => ?_, fun _ _ => rfl⟩
      rw [hL] at hf
      exact absurd hf (by decide)
  · have hu : lightningStep dt cfg s = s := by
      simp only [lightningStep, hL, Bool.false_eq_true, if_false]
    rw [hu]
    exact ⟨Or.inl rfl, fun hne => absurd rfl hne, fun _ => ⟨rfl, rfl⟩,
      fun h => absurd h hL⟩

/-- C16: in an unpaused tick (samples in `[0,1)`), `triggerLightning` runs at
most once, and only if lightning is enabled and the cooldown timer decreased by
`dt` is `≤ 0`; when it runs the timer is reset to a value in `[5, 18)`; when
lightning is disabled the tick leaves the timer unchanged, and when it is
enabled without a flash the timer is decreased by `dt`. -/
theorem loop_lightning (m : MathLib) (cfg : Config) (now : ℚ) (s : Sim)
    (hp : s.paused = false) (hg : s.rng.Valid) :
    ((loop m cfg now s).flashes = s.flashes ∨
      (loop m cfg now s).flashes = s.flashes + 1) ∧
    ((loop m cfg now s).flashes ≠ s.flashes →
      cfg.lightning = true ∧ s.lightningTimer - frameDt now s.last ≤ 0 ∧
      5 ≤ (loop m cfg now s).lightningTimer ∧ (loop m cfg now s).lightningTimer ≤ 18) ∧
    (cfg.lightning = false →
      (loop m cfg now s).lightningTimer = s.lightningTimer ∧
      (loop m cfg now s).flashes = s.flashes) ∧
    (cfg.lightning = true → (loop m cfg now s).flashes = s.flashes →
      (loop m cfg now s).lightningTimer = s.lightningTimer - frameDt now s.last) := by
  obtain ⟨s4, h1, -, -, ht, hf, hs⟩ := loop_unpaused m cfg now s hp
  obtain ⟨a, b, c, d⟩ := lightningStep_spec (frameDt now s.last) cfg s4
    (valid_of_samples hs hg)
  have e1 : (loop m cfg now s).flashes
      = (lightningStep (frameDt now s.last) cfg s4).flashes := by rw [h1]
  have e2 : (loop m cfg now s).lightningTimer
      = (lightningStep (frameDt now s.last) cfg s4).lightningTimer := by rw [h1]
  rw [e1, e2]
  rw [hf, ht] at *
  refine ⟨a, fun hne => ?_, c, d⟩
  obtain ⟨x1, x2, x3, x4⟩ := b hne
  exact ⟨x1, x2, x3, le_of_lt x4⟩

/-- C16 witness: lightning enabled, cooldown timer `0`, the probability roll reads
the sample `0.001 < 0.0015` and the reset reads `0.5`: the tick fires one flash
and resets the timer to `0.5 * 13 + 5 = 11.5`, inside `[5, 18]`. -/
theorem loop_lightning_witness :
    (startSim 1280 720 0 (seqRng [1 / 1000] (1 / 2))).paused = false ∧
    (startSim 1280 720 0 (seqRng [1 / 1000] (1 / 2))).rng.Valid ∧
    (loop approxMath stormConfig 16
      (startSim 1280 720 0 (seqRng [1 / 1000] (1 / 2)))).flashes = 1 ∧
    (loop approxMath stormConfig 16
      (startSim 1280 720 0 (seqRng [1 / 1000] (1 / 2)))).lightningTimer = 23 / 2 ∧
    stormConfig.lightning = true ∧
    (startSim 1280 720 0 (seqRng [1 / 1000] (1 / 2))).lightningTimer
      - frameDt 16 (startSim 1280 720 0 (seqRng [1 / 1000] (1 / 2))).last ≤ 0 ∧
    5 ≤ (loop approxMath stormConfig 16
      (startSim 1280 720 0 (seqRng [1 / 1000] (1 / 2)))).lightningTimer ∧
    (loop approxMath stormConfig 16
      (startSim 1280 720 0 (seqRng [1 / 1000] (1 / 2)))).lightningTimer ≤ 18 :=
  have hv : (startSim 1280 720 0 (seqRng [1 / 1000] (1 / 2))).rng.Valid := by
    intro i
    rcases i with _ | i <;> norm_num [startSim, seqRng]
  have hdt : frameDt 16 0 = 2 / 125 := by
    norm_num [frameDt]
  have hflash : (loop approxMath stormConfig 16
      (startSim 1280 720 0 (seqRng [1 / 1000] (1 / 2)))).flashes = 1 := by
    norm_num [loop, startSim, seqRng, stormConfig, ensureDrops, pushDrops, updateDrops,
      splashPass, lightningStep, triggerLightning, Rng.next, rand, hdt]
  have htimer : (loop approxMath stormConfig 16
      (startSim 1280 720 0 (seqRng [1 / 1000] (1 / 2)))).lightningTimer = 23 / 2 := by
    norm_num [loop, startSim, seqRng, stormConfig, ensureDrops, pushDrops, updateDrops,
      splashPass, lightningStep, triggerLightning, Rng.next, rand, hdt]
  have h := (loop_lightning approxMath stormConfig 16
      (startSim 1280 720 0 (seqRng [1 / 1000] (1 / 2))) rfl hv).2.1
      (by rw [hflash]; simp [startSim])
  ⟨rfl, hv, hflash, htimer, h.1, h.2.1, h.2.2.1, h.2.2.2⟩

/-! ## C17: the horizontal wrap -/

/-- The drop returned by `Drop.update` when the drop stays above the bottom. -/
theorem Drop.update_not_recycled (m : MathLib) (dt : ℚ) (cfg : Config) (d : Drop) (s : Sim)
    (hl : 0 < d.life) (hy : ¬ (Drop.advance m s.DPR dt cfg d).y > s.H) :
    (Drop.update m dt cfg d s).1 = Drop.wrap s.W (Drop.advance m s.DPR dt cfg d) := by
  simp only [Drop.update, not_le.mpr hl, if_false, Drop.recycle, hy]

/-- One wrap brings any `x` in `[-1.6*W, 2.6*W]` back into `[-0.2*W, 1.2*W]`. -/
theorem Drop.wrap_x_range (W : ℚ) (d : Drop) (h1 : -1.6 * W ≤ d.x)
    (h2 : d.x ≤ 2.6 * W) :
    -0.2 * W ≤ (Drop.wrap W d).x ∧ (Drop.wrap W d).x ≤ 1.2 * W := by
  simp only [Drop.wrap]
  split_ifs with a b c
  · dsimp only at b
    constructor <;> linarith
  · dsimp only at b
    constructor <;> dsimp only <;> linarith
  · constructor <;> dsimp only <;> linarith
  · constructor <;> linarith

/-- C17: for `W ≥ 0`, samples in `[0,1)` and an active drop with `x` in
`[-0.2*W, 1.2*W]`, if the horizontal displacement `|vx*dt*DPR|` of the step is at
most `1.4*W` then `x` is again in `[-0.2*W, 1.2*W]` after `Drop.update`; and
there is a step with a larger displacement (33 px on a surface 10 px wide) after
which `x` is outside that range, since only one wrap of `1.4*W` is applied. -/
theorem update_wrap_keeps_range (m : MathLib) (dt : ℚ) (cfg : Config) (d : Drop) (s : Sim)
    (hW : 0 ≤ s.W) (hl : 0 < d.life) (hg : s.rng.Valid)
    (hx0 : -0.2 * s.W ≤ d.x) (hx1 : d.x ≤ 1.2 * s.W)
    (hd : |(Drop.velocity m cfg d).1 * dt * s.DPR| ≤ 1.4 * s.W) :
    (-0.2 * s.W ≤ (Drop.update m dt cfg d s).1.x ∧
      (Drop.update m dt cfg d s).1.x ≤ 1.2 * s.W) ∧
    ∃ (d2 : Drop) (dt2 : ℚ) (cfg2 : Config) (s2 : Sim),
      0 ≤ s2.W ∧ 0 < d2.life ∧ s2.rng.Valid ∧
      -0.2 * s2.W ≤ d2.x ∧ d2.x ≤ 1.2 * s2.W ∧
      1.4 * s2.W < |(Drop.velocity approxMath cfg2 d2).1 * dt2 * s2.DPR| ∧
      1.2 * s2.W < (Drop.update approxMath dt2 cfg2 d2 s2).1.x := by
  constructor
  · by_cases hy : (Drop.advance m s.DPR dt cfg d).y > s.H
    · rw [Drop.update_recycled m dt cfg d s hl hy]
      have hv : (splashState m cfg (d.base * cfg.speed)
          (Drop.advance m s.DPR dt cfg d).x s).rng.Valid :=
        valid_of_samples (splashState_samples _ _ _ _ _) hg
      have hb := rand_bounds (-s.W * 0.1) (s.W * 1.1) _ hv (by linarith)
      apply Drop.wrap_x_range
      · show -1.6 * s.W ≤ (rand (-s.W * 0.1) (s.W * 1.1) _).1
        linarith [hb.1]
      · show (rand (-s.W * 0.1) (s.W * 1.1) _).1 ≤ 2.6 * s.W
        linarith [hb.2.1]
    · rw [Drop.update_not_recycled m dt cfg d s hl hy]
      obtain ⟨hlo, hhi⟩ := abs_le.mp hd
      apply Drop.wrap_x_range
      · show -1.6 * s.W ≤ d.x + (Drop.velocity m cfg d).1 * dt * s.DPR
        linarith
      · show d.x + (Drop.velocity m cfg d).1 * dt * s.DPR ≤ 2.6 * s.W
        linarith
  · refine ⟨Drop.mk 0 0 1200 1, 0.033, mkConfig 1 (4068 / 71) false,
      startSim 10 720 900 (constRng 0), by norm_num [startSim], by norm_num,
      constRng_valid 0 le_rfl (by norm_num), by norm_num [startSim],
      by norm_num [startSim], ?_, ?_⟩
    · have hv : (Drop.velocity approxMath (mkConfig 1 (4068 / 71) false)
          (Drop.mk 0 0 1200 1)).1 * 0.033 * (startSim 10 720 900 (constRng 0)).DPR = 33 := by
        norm_num [Drop.velocity, approxMath, mkConfig, startSim]
      rw [hv]
      norm_num [startSim]
    · rw [Drop.update_not_recycled _ _ _ _ _ (by norm_num)
        (by norm_num [Drop.advance, Drop.velocity, approxMath, mkConfig, startSim])]
      norm_num [Drop.wrap, Drop.advance, Drop.velocity, approxMath, mkConfig, startSim]

/-- C17 witness: a drop at `x = 100` on a 1280x720 surface, no wind. -/
theorem update_wrap_keeps_range_witness :
    (0 : ℚ) ≤ (startSim 1280 720 900 (constRng 0)).W ∧
    (0 : ℚ) < (Drop.mk 100 50 1000 1).life ∧
    (startSim 1280 720 900 (constRng 0)).rng.Valid ∧
    -0.2 * (startSim 1280 720 900 (constRng 0)).W ≤
      (Drop.update approxMath 0.016 (mkConfig 1 0 true) (Drop.mk 100 50 1000 1)
        (startSim 1280 720 900 (constRng 0))).1.x ∧
    (Drop.update approxMath 0.016 (mkConfig 1 0 true) (Drop.mk 100 50 1000 1)
        (startSim 1280 720 900 (constRng 0))).1.x
      ≤ 1.2 * (startSim 1280 720 900 (constRng 0)).W :=
  ⟨by norm_num [startSim], by norm_num, constRng_valid 0 le_rfl (by norm_num),
    (update_wrap_keeps_range approxMath 0.016 (mkConfig 1 0 true) (Drop.mk 100 50 1000 1)
      (startSim 1280 720 900 (constRng 0)) (by norm_num [startSim]) (by norm_num)
      (constRng_valid 0 le_rfl (by norm_num)) (by norm_num [startSim])
      (by norm_num [startSim])
      (by norm_num [Drop.velocity, approxMath, mkConfig, startSim])).1⟩

/-! ## C18: every drop in the pool is active -/

theorem Drop.update_life (m : MathLib) (dt : ℚ) (cfg : Config) (d : Drop) (s : Sim)
    (h : d.life = 1) : (Drop.update m dt cfg d s).1.life = 1 := by
  have hl : 0 < d.life := by rw [h]; norm_num
  by_cases hy : (Drop.advance m s.DPR dt cfg d).y > s.H
  · rw [Drop.update_recycled m dt cfg d s hl hy, Drop.wrap_life]
    rfl
  · rw [Drop.update_not_recycled m dt cfg d s hl hy, Drop.wrap_life]
    exact h

theorem updateDrops_life (m : MathLib) (dt : ℚ) (cfg : Config) (ds : List Drop) (s : Sim)
    (h : ∀ d ∈ ds, d.life = 1) : ∀ d ∈ (updateDrops m dt cfg ds s).1, d.life = 1 := by
  induction ds generalizing s with
  | nil => simp [updateDrops]
  | cons a ds ih =>
    intro d hd
    simp only [updateDrops, List.mem_cons] at hd
    rcases hd with hd | hd
    · rw [hd]
      exact Drop.update_life m dt cfg a s (h a (List.mem_cons_self _ _))
    · exact ih _ (fun x hx => h x (List.mem_cons_of_mem _ hx)) d hd

theorem pushDrops_life (W H : ℚ) (k : Nat) (ds : List Drop) (g : Rng)
    (h : ∀ d ∈ ds, d.life = 1) : ∀ d ∈ (pushDrops W H k ds g).1, d.life = 1 := by
  intro d hd
  rw [pushDrops_append, List.mem_append] at hd
  rcases hd with hd | hd
  · exact h d hd
  · obtain ⟨g1, -, h2⟩ := pushDrops_fresh W H k g d hd
    rw [h2]
    rfl

theorem ensureDrops_life (s : Sim) (h : ∀ d ∈ s.drops, d.life = 1) :
    ∀ d ∈ (ensureDrops s).drops, d.life = 1 := by
  intro d hd
  simp only [ensureDrops] at hd
  split_ifs at hd
  · exact pushDrops_life _ _ _ _ _ h d (List.mem_of_mem_take hd)
  · exact pushDrops_life _ _ _ _ _ h d hd

theorem keydown_life (e : KeyEvent) (s : Sim) (h : ∀ d ∈ s.drops, d.life = 1) :
    ∀ d ∈ (keydown e s).drops, d.life = 1 := by
  simp only [keydown]
  split_ifs
  · exact h
  · exact h
  · exact ensureDrops_life _ (by simp)
  · exact h

theorem loop_life (m : MathLib) (cfg : Config) (now : ℚ) (s : Sim)
    (h : ∀ d ∈ s.drops, d.life = 1) : ∀ d ∈ (loop m cfg now s).drops, d.life = 1 := by
  by_cases hp : s.paused = true
  · have hu : loop m cfg now s = { s with last := now, frames := s.frames + 1 } := by
      simp [loop, hp]
    rw [hu]
    exact h
  · obtain ⟨s4, h1, h2, -, -, -, -⟩ := loop_unpaused m cfg now s (by simpa using hp)
    have e : (loop m cfg now s).drops = s4.drops := by
      rw [h1]
      exact lightningStep_drops _ _ _
    rw [e, h2]
    exact updateDrops_life m _ cfg _ _ (ensureDrops_life _ h)

/-- C18: in every state reachable from script start through `resize`, the
density control, `keydown` (reset included) and `loop` ticks, every drop of the
pool has `life = 1`: a drop is built with `life = 1` and every `Drop.update` of
a pool drop returns it with `life = 1`, so the drops a tick passes to
`Drop.update` never take the inactive early return. -/
theorem reachable_drops_active (m : MathLib) (s : Sim) (hr : Reachable m s) :
    (∀ d ∈ s.drops, d.life = 1) ∧
    (∀ now : ℚ, ∀ d ∈ (ensureDrops { s with last := now }).drops, ¬ d.life ≤ 0) ∧
    (∀ (dt : ℚ) (cfg : Config) (t : Sim), ∀ d ∈ s.drops,
      (Drop.update m dt cfg d t).1.life = 1) ∧
    (∀ (W H : ℚ) (g : Rng), (Drop.new W H g).1.life = 1) := by
  have inv : ∀ d ∈ s.drops, d.life = 1 := by
    induction hr with
    | start dpr density w h now g => simp [initSim, resize]
    | resize density w h s _ ih => exact ih
    | densityInput density w h s _ ih => exact ensureDrops_life _ ih
    | keydown e s _ ih => exact keydown_life e s ih
    | loop cfg now s _ ih => exact loop_life m cfg now s ih
  refine ⟨inv, fun now d hd => ?_, fun dt cfg t d hd => ?_, fun _ _ _ => rfl⟩
  · have h1 := ensureDrops_life { s with last := now } inv d hd
    rw [h1]
    norm_num
  · exact Drop.update_life m dt cfg d t (inv d hd)

/-- C18 witness: the state after loading, pressing `r` and one tick. -/
theorem reachable_drops_active_witness :
    Reachable approxMath (loop approxMath (mkConfig 1 0 true) 16
      (keydown ⟨"KeyR", "r"⟩ (initSim 1 900 1280 720 0 (constRng 0)))) ∧
    ∀ d ∈ (loop approxMath (mkConfig 1 0 true) 16
      (keydown ⟨"KeyR", "r"⟩ (initSim 1 900 1280 720 0 (constRng 0)))).drops, d.life = 1 :=
  ⟨Reachable.loop _ _ _ (Reachable.keydown _ _ (Reachable.start _ _ _ _ _ _)),
    (reachable_drops_active approxMath _
      (Reachable.loop _ _ _ (Reachable.keydown _ _ (Reachable.start _ _ _ _ _ _)))).1⟩

end Rain
